import Mathlib

/-! Error-handling strategies over a multi-level average.

A shallow embedding of `error_handling_perf.cpp`: the leaf aggregators
`average_*`, the recursive aggregators `multilevel_average_*`, and the two
result containers `Expected<T>` and `ExpectedEC<T>`.

Conventions of the embedding.

* `int` is a mathematical integer reduced to the 32-bit two's complement range
  by `wrap32` after every arithmetic operation.
* A call either returns, leaves through a C++ exception, or reads a vector out
  of bounds; `Outcome` records which.
* An `int&` out-parameter is passed in as a value and handed back next to the
  returned `bool`.
* `level` is a natural number: the source recursion only ends for `level >= 0`.
-/

namespace ErrorHandling

/-! ## Machine integers -/

/-- Reduction of an integer to the range of a 32-bit two's complement `int`. -/
def wrap32 (x : Int) : Int := (x + 2147483648) % 4294967296 - 2147483648

/-- Addition of two `int`s. -/
def add32 (a b : Int) : Int := wrap32 (a + b)

/-- Multiplication of two `int`s. -/
def mul32 (a b : Int) : Int := wrap32 (a * b)

/-- Division of two `int`s: C++ `/` truncates toward zero. -/
def div32 (a b : Int) : Int := wrap32 (Int.tdiv a b)

/-- Source: `constexpr int pow10(int n) { return n <= 0 ? 1 : 10 * pow10(n - 1); }`,
on the non-negative arguments. -/
def pow10 : Nat → Int
  | 0 => 1
  | n + 1 => mul32 10 (pow10 n)

/-- Source: `static constexpr int numLevels = 4;`. -/
def numLevels : Nat := 4

/-- Source: `static constexpr int numSeq = pow10(numLevels);`. -/
def numSeq : Int := pow10 numLevels

/-! ## Exceptions and outcomes of a call -/

/-- The dynamic types of the exceptions the program throws, and `range_error`, a class
derived from `runtime_error`, for an object whose dynamic type is not its static one. -/
inductive ExnType where
  | runtime_error
  | invalid_argument
  | range_error
  deriving DecidableEq, Repr

/-- An exception object: its dynamic type and its `what()` text. -/
structure Exn where
  dynType : ExnType
  what : String
  deriving DecidableEq, Repr

/-- The exception `runtime_error(msg)`. -/
def runtime_error (msg : String) : Exn := ⟨ExnType.runtime_error, msg⟩

/-- The exception `invalid_argument(msg)`. -/
def invalid_argument (msg : String) : Exn := ⟨ExnType.invalid_argument, msg⟩

/-- How a call ends: it returns `a`, it leaves by throwing `e`, or it indexes a
vector outside its bounds (`oob`, undefined behaviour in the source). -/
inductive Outcome (α : Type) where
  | ret (a : α)
  | raise (e : Exn)
  | oob
  deriving DecidableEq, Repr

/-- Post-processing of a returned value; a throw or an out-of-bounds read passes through. -/
def Outcome.map {α β : Type} (f : α → β) : Outcome α → Outcome β
  | .ret a => .ret (f a)
  | .raise e => .raise e
  | .oob => .oob

/-- Sequencing of two calls; a throw or an out-of-bounds read of the first ends both. -/
def Outcome.bind {α β : Type} (o : Outcome α) (f : α → Outcome β) : Outcome β :=
  match o with
  | .ret a => f a
  | .raise e => .raise e
  | .oob => .oob

/-! ## The result containers -/

/-- Source: `template <typename T> class Expected`, a value or a stored exception. -/
inductive Expected (α : Type) where
  | value (v : α)
  | error (p : Exn)
  deriving DecidableEq, Repr

/-- Source: `static Expected<T> fromException(exception_ptr p)`, for a `p` that refers to
an exception object. -/
def Expected.fromExceptionPtr {α : Type} (p : Exn) : Expected α := .error p

/-- Source: `make_exception_ptr(ex)` at static type `E`: the stored object is a copy of `ex`
made as an `E`, so its dynamic type is `E`. -/
def make_exception_ptr (E : ExnType) (ex : Exn) : Exn := ⟨E, ex.what⟩

/-- Source: `template <typename E> static Expected<T> fromException(const E& ex)`;
`E` is the static type, `ex.dynType` the one `typeid(ex)` sees. -/
def Expected.fromException {α : Type} (E : ExnType) (ex : Exn) : Outcome (Expected α) :=
  if ex.dynType ≠ E then
    .raise (invalid_argument "invalid exception type; slicing may occur")
  else
    .ret (Expected.fromExceptionPtr (make_exception_ptr E ex))

/-- Source: `Expected(const Expected& other)`: the live arm of `other` is copied. -/
def Expected.copy {α : Type} : Expected α → Expected α
  | .value v => .value v
  | .error p => .error p

/-- Source: `Expected(Expected&& other)`: the live arm of `other` is moved into the new
container. -/
def Expected.moveFrom {α : Type} : Expected α → Expected α
  | .value v => .value v
  | .error p => .error p

/-- Source: `bool valid() const { return likely(hasValue_); }`. -/
def Expected.valid {α : Type} : Expected α → Bool
  | .value _ => true
  | .error _ => false

/-- Source: `T& get()`: the value, or the stored exception rethrown. -/
def Expected.get {α : Type} : Expected α → Outcome α
  | .value v => .ret v
  | .error p => .raise p

/-- Source: `template <typename T> class ExpectedEC`, a value or a `uint32_t` error code. -/
inductive ExpectedEC (α : Type) where
  | value (v : α)
  | errorCode (ec : Nat)
  deriving DecidableEq, Repr

/-- Source: `ExpectedEC(const ExpectedEC& other)`: the value is copied, or the error code
assigned. -/
def ExpectedEC.copy {α : Type} : ExpectedEC α → ExpectedEC α
  | .value v => .value v
  | .errorCode ec => .errorCode ec

/-- Source: `ExpectedEC(ExpectedEC&& other)`: the value is moved, or the error code assigned. -/
def ExpectedEC.moveFrom {α : Type} : ExpectedEC α → ExpectedEC α
  | .value v => .value v
  | .errorCode ec => .errorCode ec

/-- Source: `static ExpectedEC<T> fromErrorCode(uint32_t ec)`. -/
def ExpectedEC.fromErrorCode {α : Type} (ec : Nat) : ExpectedEC α :=
  .errorCode (ec % 4294967296)

/-- Source: `bool valid() const { return likely(hasValue_); }`. -/
def ExpectedEC.valid {α : Type} : ExpectedEC α → Bool
  | .value _ => true
  | .errorCode _ => false

/-- Source: `T& get()`: the value, or `runtime_error("unchecked error")` thrown. -/
def ExpectedEC.get {α : Type} : ExpectedEC α → Outcome α
  | .value v => .ret v
  | .errorCode _ => .raise (runtime_error "unchecked error")

/-- Source: `uint32_t getErrorCode() const { return hasValue_ ? 0 : errorCode_; }`. -/
def ExpectedEC.getErrorCode {α : Type} : ExpectedEC α → Nat
  | .value _ => 0
  | .errorCode ec => ec

/-! ## Sequences and leaf aggregators -/

/-- Source: `typedef vector<int> Sequence;`. -/
abbrev Sequence := List Int

/-- Source: `accumulate(begin(seq), end(seq), 0)`, the running `int` sum. -/
def accumulate (seq : Sequence) : Int := seq.foldl add32 0

/-- Source: the expression `sum / int(seq.size())` shared by all leaf aggregators. -/
def mean (seq : Sequence) : Int := div32 (accumulate seq) (wrap32 (seq.length : Int))

/-- Source: `int average_ignore(const Sequence& seq) noexcept`. -/
def average_ignore (seq : Sequence) : Int :=
  if seq.isEmpty then 0 else mean seq

/-- Source: `bool average_ret(const Sequence& seq, int& res) noexcept`;
the second component is `res` after the call. -/
def average_ret (seq : Sequence) (res : Int) : Bool × Int :=
  if seq.isEmpty then (false, res) else (true, mean seq)

/-- Source: `int average_except(const Sequence& seq)`. -/
def average_except (seq : Sequence) : Outcome Int :=
  if seq.isEmpty then .raise (runtime_error "empty sequence") else .ret (mean seq)

/-- Source: `Expected<int> average_expected(const Sequence& seq)`. -/
def average_expected (seq : Sequence) : Outcome (Expected Int) :=
  if seq.isEmpty then
    Expected.fromException ExnType.runtime_error (runtime_error "empty sequence")
  else .ret (.value (mean seq))

/-- Source: `ExpectedEC<int> average_expectedEC(const Sequence& seq)`. -/
def average_expectedEC (seq : Sequence) : ExpectedEC Int :=
  if seq.isEmpty then ExpectedEC.fromErrorCode 1 else .value (mean seq)

/-- Source: `int average_errcode(const Sequence& seq, int& errorCode) noexcept`;
the second component is `errorCode` after the call. -/
def average_errcode (seq : Sequence) (errorCode : Int) : Int × Int :=
  if seq.isEmpty then (0, 1) else (mean seq, errorCode)

/-! ## The sequence generator

`rand()` after `srand(0)` is a fixed stream of non-negative `int`s that the source does not
define; the generator takes it as `rand : Nat → Nat`, `rand k` being the value of call `k`,
and threads the number `pos` of calls made so far. The retry loop has no bound in the source,
so its model takes `fuel`, the number of draws one retry loop may make, and yields `none` when
that does not suffice. -/

/-- Source: `seq.resize(1 + rand() % 20); for (auto& el : seq) el = rand() % 1024;`,
with the number of calls of `rand` after it. -/
def fillSequence (rand : Nat → Nat) (pos : Nat) : Sequence × Nat :=
  ((List.range (1 + rand pos % 20)).map fun j => ((rand (pos + 1 + j) % 1024 : Nat) : Int),
    pos + 1 + (1 + rand pos % 20))

/-- Source: `for (auto& seq : res) { ... }` for the `n` sequences of `res` still to fill;
`filled` holds the sequences filled so far, last one first. -/
def fillSequences (rand : Nat → Nat) : Nat → Nat → List Sequence → List Sequence × Nat
  | 0, pos, filled => (filled.reverse, pos)
  | n + 1, pos, filled =>
    fillSequences rand n (fillSequence rand pos).2 ((fillSequence rand pos).1 :: filled)

/-- Source: `do { seqIdx = rand() % numSeq; } while (res[seqIdx].empty());` with at most
`fuel` draws: the index found and the number of calls of `rand` after it. -/
def pickNonEmpty (rand : Nat → Nat) (res : List Sequence) : Nat → Nat → Option (Nat × Nat)
  | 0, _ => none
  | fuel + 1, pos =>
    if ((res[rand pos % numSeq.toNat]?).getD []).isEmpty then pickNonEmpty rand res fuel (pos + 1)
    else some (rand pos % numSeq.toNat, pos + 1)

/-- Source: `for (int i = 0; i < zeroCount; i++) { pick; res[seqIdx].clear(); }` for the `n`
passes left; `cleared` lists the indices cleared so far, in order. -/
def clearSequences (rand : Nat → Nat) (fuel : Nat) :
    Nat → List Sequence → Nat → List Nat → Option (List Sequence × List Nat)
  | 0, res, _, cleared => some (res, cleared)
  | n + 1, res, pos, cleared =>
    match pickNonEmpty rand res fuel pos with
    | none => none
    | some (seqIdx, pos1) =>
      clearSequences rand fuel n (res.set seqIdx []) pos1 (cleared ++ [seqIdx])

/-- Source: `vector<Sequence> genSequences(int zeroCount)`, with the indices it cleared. -/
def genSequencesCleared (rand : Nat → Nat) (zeroCount : Int) (fuel : Nat) :
    Option (List Sequence × List Nat) :=
  clearSequences rand fuel zeroCount.toNat (fillSequences rand numSeq.toNat 0 []).1
    (fillSequences rand numSeq.toNat 0 []).2 []

/-- Source: `vector<Sequence> genSequences(int zeroCount)`. -/
def genSequences (rand : Nat → Nat) (zeroCount : Int) (fuel : Nat) : Option (List Sequence) :=
  (genSequencesCleared rand zeroCount fuel).map Prod.fst

/-- A sequence as the first loop of the generator leaves it: between 1 and 20 elements,
all in `[0, 1024)`. -/
def FilledSeq (seq : Sequence) : Prop :=
  1 ≤ seq.length ∧ seq.length ≤ 20 ∧ ∀ x ∈ seq, 0 ≤ x ∧ x < 1024

/-- What holds of the dataset and of the indices cleared between two passes of the clearing
loop: the cleared indices are distinct and are exactly the indices of the empty sequences, and
the other sequences are as they were filled. -/
def ClearInv (res : List Sequence) (cleared : List Nat) : Prop :=
  res.length = numSeq.toNat ∧ cleared.Nodup ∧ (∀ i, i ∈ cleared ↔ res[i]? = some []) ∧
    res.count [] = cleared.length ∧ ∀ seq ∈ res, seq ≠ [] → FilledSeq seq

/-- A stream that, from every point on, draws every index of the dataset again. -/
def EventuallyHits (rand : Nat → Nat) : Prop :=
  ∀ pos idx : Nat, idx < numSeq.toNat → ∃ k, rand (pos + k) % numSeq.toNat = idx

/-! ## The loop shared by the recursive aggregators -/

/-- Source: `sequences[idx]` with an `int` index: outside `0 .. size()-1` the read is out of bounds. -/
def index (sequences : List Sequence) (idx : Int) : Outcome Sequence :=
  if 0 ≤ idx then
    match sequences[idx.toNat]? with
    | some seq => .ret seq
    | none => .oob
  else .oob

/-- What one pass through a loop body does: go on with a new `sum`, or leave the function. -/
inductive Step (ρ : Type) where
  | next (sum : Int)
  | exit (r : Outcome ρ)

/-- A callee that throws or reads out of bounds ends the caller too; otherwise go on with its value. -/
def Step.after {α ρ : Type} (o : Outcome α) (k : α → Step ρ) : Step ρ :=
  match o with
  | .ret a => k a
  | .raise e => .exit (.raise e)
  | .oob => .exit .oob

/-- Source: the values `i` takes in `for (int i = 0; i < 10; i++)`. -/
def loopIndices : List Int := [0, 1, 2, 3, 4, 5, 6, 7, 8, 9]

/-- Source: `int sum = 0; for (...) { body } finish`, run over the remaining values of `i`
from the current `sum`; a body may leave the function early. -/
def forLoop {ρ : Type} (body : Int → Int → Step ρ) (finish : Int → Outcome ρ) :
    List Int → Int → Outcome ρ
  | [], sum => finish sum
  | i :: rest, sum =>
    match body i sum with
    | .next sum1 => forLoop body finish rest sum1
    | .exit r => r

/-- Source: `int idx = start + i * stride;`. -/
def childIndex (start stride i : Int) : Int := add32 start (mul32 i stride)

/-! ## Silent-default aggregator -/

/-- Source: loop body of `multilevel_average_ignore`: `sum += val;`. -/
def ignore_body (child : Int → Outcome Int) (start stride i sum : Int) : Step Int :=
  Step.after (child (childIndex start stride i)) fun val => .next (add32 sum val)

/-- Source: `int multilevel_average_ignore(const vector<Sequence>&, int start, int level) noexcept`. -/
def multilevel_average_ignore (sequences : List Sequence) : Int → Nat → Outcome Int
  | start, 0 =>
    forLoop (ignore_body (fun idx => (index sequences idx).map average_ignore) start (pow10 0))
      (fun sum => .ret (div32 sum 10)) loopIndices 0
  | start, level + 1 =>
    forLoop (ignore_body (fun idx => multilevel_average_ignore sequences idx level) start
        (pow10 (level + 1)))
      (fun sum => .ret (div32 sum 10)) loopIndices 0

/-- Source: the loop of `multilevel_average_ignore`, keeping next to the result the indices at
which `sequences` has been read so far, in the order of the reads. -/
def readsLoop (child : Int → Outcome Int × List Int) (start stride : Int) :
    List Int → Int → List Int → Outcome Int × List Int
  | [], sum, reads => (.ret (div32 sum 10), reads)
  | i :: rest, sum, reads =>
    match child (childIndex start stride i) with
    | (.ret val, r) => readsLoop child start stride rest (add32 sum val) (reads ++ r)
    | (.raise e, r) => (.raise e, reads ++ r)
    | (.oob, r) => (.oob, reads ++ r)

/-- Source: `multilevel_average_ignore`, instrumented: the result of the call and the indices
`idx` of its reads `sequences[idx]`, in order. -/
def multilevel_average_ignore_reads (sequences : List Sequence) :
    Int → Nat → Outcome Int × List Int
  | start, 0 =>
    readsLoop (fun idx => ((index sequences idx).map average_ignore, [idx])) start (pow10 0)
      loopIndices 0 []
  | start, level + 1 =>
    readsLoop (fun idx => multilevel_average_ignore_reads sequences idx level) start
      (pow10 (level + 1)) loopIndices 0 []

/-! ## Out-parameter aggregators -/

/-- Source: loop body of `multilevel_average_ret`: `if (!ok) return false; sum += val;`.
The child gets a fresh `int val = 0`; on the early return `res` is as the caller left it. -/
def ret_body (child : Int → Int → Outcome (Bool × Int)) (res start stride i sum : Int) :
    Step (Bool × Int) :=
  Step.after (child (childIndex start stride i) 0) fun r =>
    if !r.1 then .exit (.ret (false, res)) else .next (add32 sum r.2)

/-- Source: `bool multilevel_average_ret(const vector<Sequence>&, int start, int level, int& res) noexcept`;
the last argument is `res` before the call, the second component of the result `res` after it. -/
def multilevel_average_ret (sequences : List Sequence) : Int → Nat → Int → Outcome (Bool × Int)
  | start, 0, res =>
    forLoop (ret_body (fun idx val => (index sequences idx).map fun seq => average_ret seq val)
        res start (pow10 0))
      (fun sum => .ret (true, div32 sum 10)) loopIndices 0
  | start, level + 1, res =>
    forLoop (ret_body (fun idx val => multilevel_average_ret sequences idx level val)
        res start (pow10 (level + 1)))
      (fun sum => .ret (true, div32 sum 10)) loopIndices 0

/-- Source: loop body of `multilevel_average_ret_ign`: `if (ok) sum += val;`. -/
def ret_ign_body (child : Int → Int → Outcome (Bool × Int)) (start stride i sum : Int) :
    Step (Bool × Int) :=
  Step.after (child (childIndex start stride i) 0) fun r =>
    if r.1 then .next (add32 sum r.2) else .next sum

/-- Source: `bool multilevel_average_ret_ign(const vector<Sequence>&, int start, int level, int& res) noexcept`. -/
def multilevel_average_ret_ign (sequences : List Sequence) :
    Int → Nat → Int → Outcome (Bool × Int)
  | start, 0, _ =>
    forLoop (ret_ign_body (fun idx val => (index sequences idx).map fun seq => average_ret seq val)
        start (pow10 0))
      (fun sum => .ret (true, div32 sum 10)) loopIndices 0
  | start, level + 1, _ =>
    forLoop (ret_ign_body (fun idx val => multilevel_average_ret_ign sequences idx level val)
        start (pow10 (level + 1)))
      (fun sum => .ret (true, div32 sum 10)) loopIndices 0

/-! ## Immediate-raise aggregators -/

/-- Source: loop body of `multilevel_average_except`: `sum += val;`, an exception of the
child propagating. -/
def except_body (child : Int → Outcome Int) (start stride i sum : Int) : Step Int :=
  Step.after (child (childIndex start stride i)) fun val => .next (add32 sum val)

/-- Source: `int multilevel_average_except(const vector<Sequence>&, int start, int level)`. -/
def multilevel_average_except (sequences : List Sequence) : Int → Nat → Outcome Int
  | start, 0 =>
    forLoop (except_body (fun idx => (index sequences idx).bind average_except) start (pow10 0))
      (fun sum => .ret (div32 sum 10)) loopIndices 0
  | start, level + 1 =>
    forLoop (except_body (fun idx => multilevel_average_except sequences idx level) start
        (pow10 (level + 1)))
      (fun sum => .ret (div32 sum 10)) loopIndices 0

/-- Source: loop body of `multilevel_average_except_ign`:
`try { int val = ...; sum += val; } catch (...) {}`. -/
def except_ign_body (child : Int → Outcome Int) (start stride i sum : Int) : Step Int :=
  match child (childIndex start stride i) with
  | .ret val => .next (add32 sum val)
  | .raise _ => .next sum
  | .oob => .exit .oob

/-- Source: `int multilevel_average_except_ign(const vector<Sequence>&, int start, int level)`. -/
def multilevel_average_except_ign (sequences : List Sequence) : Int → Nat → Outcome Int
  | start, 0 =>
    forLoop (except_ign_body (fun idx => (index sequences idx).bind average_except) start
        (pow10 0))
      (fun sum => .ret (div32 sum 10)) loopIndices 0
  | start, level + 1 =>
    forLoop (except_ign_body (fun idx => multilevel_average_except_ign sequences idx level) start
        (pow10 (level + 1)))
      (fun sum => .ret (div32 sum 10)) loopIndices 0

/-! ## Aggregators over the exception-carrying container -/

/-- Source: loop body of `multilevel_average_expected`: `sum += val.get();`. -/
def expected_body (child : Int → Outcome (Expected Int)) (start stride i sum : Int) : Step Int :=
  Step.after (child (childIndex start stride i)) fun val =>
    Step.after val.get fun v => .next (add32 sum v)

/-- Source: `int multilevel_average_expected(const vector<Sequence>&, int start, int level)`;
the `int` of the recursive call converts to `Expected<int>` through `Expected(T&&)`. -/
def multilevel_average_expected (sequences : List Sequence) : Int → Nat → Outcome Int
  | start, 0 =>
    forLoop (expected_body (fun idx => (index sequences idx).bind average_expected) start
        (pow10 0))
      (fun sum => .ret (div32 sum 10)) loopIndices 0
  | start, level + 1 =>
    forLoop (expected_body
        (fun idx => (multilevel_average_expected sequences idx level).map Expected.value) start
        (pow10 (level + 1)))
      (fun sum => .ret (div32 sum 10)) loopIndices 0

/-- Source: loop body of `multilevel_average_expected_ign`:
`if (likely(val.valid())) sum += val.get();`. -/
def expected_ign_body (child : Int → Outcome (Expected Int)) (start stride i sum : Int) :
    Step Int :=
  Step.after (child (childIndex start stride i)) fun val =>
    if val.valid then Step.after val.get fun v => .next (add32 sum v) else .next sum

/-- Source: `int multilevel_average_expected_ign(const vector<Sequence>&, int start, int level)`. -/
def multilevel_average_expected_ign (sequences : List Sequence) : Int → Nat → Outcome Int
  | start, 0 =>
    forLoop (expected_ign_body (fun idx => (index sequences idx).bind average_expected) start
        (pow10 0))
      (fun sum => .ret (div32 sum 10)) loopIndices 0
  | start, level + 1 =>
    forLoop (expected_ign_body
        (fun idx => (multilevel_average_expected_ign sequences idx level).map Expected.value)
        start (pow10 (level + 1)))
      (fun sum => .ret (div32 sum 10)) loopIndices 0

/-! ## Aggregators over the code-carrying container -/

/-- Source: loop body of `multilevel_average_expectedEC`:
`if (unlikely(!val.valid())) return val; sum += val.get();`. -/
def expectedEC_body (child : Int → Outcome (ExpectedEC Int)) (start stride i sum : Int) :
    Step (ExpectedEC Int) :=
  Step.after (child (childIndex start stride i)) fun val =>
    if !val.valid then .exit (.ret val) else Step.after val.get fun v => .next (add32 sum v)

/-- Source: `ExpectedEC<int> multilevel_average_expectedEC(const vector<Sequence>&, int start, int level)`. -/
def multilevel_average_expectedEC (sequences : List Sequence) :
    Int → Nat → Outcome (ExpectedEC Int)
  | start, 0 =>
    forLoop (expectedEC_body (fun idx => (index sequences idx).map average_expectedEC) start
        (pow10 0))
      (fun sum => .ret (.value (div32 sum 10))) loopIndices 0
  | start, level + 1 =>
    forLoop (expectedEC_body (fun idx => multilevel_average_expectedEC sequences idx level) start
        (pow10 (level + 1)))
      (fun sum => .ret (.value (div32 sum 10))) loopIndices 0

/-- Source: loop body of `multilevel_average_expectedEC_ign`:
`if (likely(val.valid())) sum += val.get();`. -/
def expectedEC_ign_body (child : Int → Outcome (ExpectedEC Int)) (start stride i sum : Int) :
    Step Int :=
  Step.after (child (childIndex start stride i)) fun val =>
    if val.valid then Step.after val.get fun v => .next (add32 sum v) else .next sum

/-- Source: `int multilevel_average_expectedEC_ign(const vector<Sequence>&, int start, int level)`;
the `int` of the recursive call converts to `ExpectedEC<int>` through `ExpectedEC(T&&)`. -/
def multilevel_average_expectedEC_ign (sequences : List Sequence) : Int → Nat → Outcome Int
  | start, 0 =>
    forLoop (expectedEC_ign_body (fun idx => (index sequences idx).map average_expectedEC) start
        (pow10 0))
      (fun sum => .ret (div32 sum 10)) loopIndices 0
  | start, level + 1 =>
    forLoop (expectedEC_ign_body
        (fun idx => (multilevel_average_expectedEC_ign sequences idx level).map ExpectedEC.value)
        start (pow10 (level + 1)))
      (fun sum => .ret (div32 sum 10)) loopIndices 0

/-! ## Vocabulary of the statements -/

/-- The pair `(start, level)` is in range for `sequences`: the leaf indices
`start .. start + 10^(level+1) - 1` are indices of `sequences` and fit an `int`. -/
def InRange (sequences : List Sequence) (start : Int) (level : Nat) : Prop :=
  0 ≤ start ∧ start + 10 ^ (level + 1) ≤ (sequences.length : Int) ∧
    start + 10 ^ (level + 1) ≤ 2147483648

instance (sequences : List Sequence) (start : Int) (level : Nat) :
    Decidable (InRange sequences start level) := by
  unfold InRange; infer_instance

/-- The sequences with index in `start .. start + 10^(level+1) - 1`, in index order. -/
def subtree (sequences : List Sequence) (start : Int) (level : Nat) : List Sequence :=
  (sequences.drop start.toNat).take (10 ^ (level + 1))

/-- The sequence at index `k`, for statements about in-range indices. -/
def seqAt (sequences : List Sequence) (k : Int) : Sequence :=
  (sequences[k.toNat]?).getD []

/-- The value of the subtree at `(start, level)` when an empty leaf counts as `0`:
every node is the truncated tenth of the `int` sum of its ten children. -/
def treeValue (sequences : List Sequence) : Int → Nat → Int
  | start, 0 =>
    div32 (loopIndices.foldl (fun s i => add32 s (average_ignore (seqAt sequences (start + i)))) 0)
      10
  | start, level + 1 =>
    div32 (loopIndices.foldl
      (fun s i => add32 s (treeValue sequences (start + i * 10 ^ (level + 1)) level)) 0) 10

/-- The truncated tenth of the `int` sum of `vals`: what a node makes of the results that
entered its sum. -/
def tenthOfSum (vals : List Int) : Int := Int.tdiv (wrap32 vals.sum) 10

/-- The results of the children that succeeded, in index order: `child` is the call the loop
makes at a child index and `value` reads the result of a returned call, if it holds one. -/
def succeeded {α : Type} (child : Int → Outcome α) (value : α → Option Int)
    (start stride : Int) : List Int :=
  loopIndices.filterMap fun i =>
    match child (childIndex start stride i) with
    | .ret a => value a
    | _ => none

/-- Source: `level == 0 ? average_ret(sequences[idx], val)
: multilevel_average_ret_ign(sequences, idx, level - 1, val)` with `val = 0`. -/
def ret_ign_child (sequences : List Sequence) (level : Nat) (idx : Int) : Outcome (Bool × Int) :=
  match level with
  | 0 => (index sequences idx).map fun seq => average_ret seq 0
  | n + 1 => multilevel_average_ret_ign sequences idx n 0

/-- Source: `level == 0 ? average_except(sequences[idx])
: multilevel_average_except_ign(sequences, idx, level - 1)`. -/
def except_ign_child (sequences : List Sequence) (level : Nat) (idx : Int) : Outcome Int :=
  match level with
  | 0 => (index sequences idx).bind average_except
  | n + 1 => multilevel_average_except_ign sequences idx n

/-- Source: `level == 0 ? average_expected(sequences[idx])
: multilevel_average_expected_ign(sequences, idx, level - 1)`. -/
def expected_ign_child (sequences : List Sequence) (level : Nat) (idx : Int) :
    Outcome (Expected Int) :=
  match level with
  | 0 => (index sequences idx).bind average_expected
  | n + 1 => (multilevel_average_expected_ign sequences idx n).map Expected.value

/-- Source: `level == 0 ? average_expectedEC(sequences[idx])
: multilevel_average_expectedEC_ign(sequences, idx, level - 1)`. -/
def expectedEC_ign_child (sequences : List Sequence) (level : Nat) (idx : Int) :
    Outcome (ExpectedEC Int) :=
  match level with
  | 0 => (index sequences idx).map average_expectedEC
  | n + 1 => (multilevel_average_expectedEC_ign sequences idx n).map ExpectedEC.value

/-- Source: `level == 0 ? average_ignore(sequences[idx])
: multilevel_average_ignore(sequences, idx, level - 1)`. -/
def ignore_child (sequences : List Sequence) (level : Nat) (idx : Int) : Outcome Int :=
  match level with
  | 0 => (index sequences idx).map average_ignore
  | n + 1 => multilevel_average_ignore sequences idx n

/-- A sequence as the generator fills it, or emptied: at most 20 elements, all in `[0, 1024)`. -/
def GoodSeq (seq : Sequence) : Prop := seq.length ≤ 20 ∧ ∀ x ∈ seq, 0 ≤ x ∧ x < 1024

instance (seq : Sequence) : Decidable (GoodSeq seq) := by
  unfold GoodSeq; infer_instance

/-- The value a `bool`-and-slot result holds: the slot when the flag is `true`. -/
def flagged (r : Bool × Int) : Option Int := if r.1 then some r.2 else none

/-- The value an `Expected<int>` holds: `get()` when `valid()`. -/
def Expected.held : Expected Int → Option Int
  | .value v => some v
  | .error _ => none

/-- The value an `ExpectedEC<int>` holds: `get()` when `valid()`. -/
def ExpectedEC.held : ExpectedEC Int → Option Int
  | .value v => some v
  | .errorCode _ => none

/-- Twelve sequences, all non-empty. -/
def sampleFull : List Sequence :=
  [[7], [10], [2, 5], [3, 4, 8], [1023], [0], [1, 1, 1], [40, 2], [9], [6, 6], [100, 1], [12]]

/-- Twelve sequences, of which those at indices 3 and 7 are empty. -/
def sampleHoles : List Sequence :=
  [[7], [10], [2, 5], [], [1023], [0], [1, 1, 1], [], [9], [6, 6], [100, 1], [12]]

/-- A dataset of 104 non-empty sequences, enough for a level-1 node. -/
def sampleWide : List Sequence :=
  (List.range 104).map fun n => [(n : Int), 3, 1000]

/-- A dataset of 120 sequences of which only the one at index 57 is empty. -/
def sampleDeep : List Sequence :=
  (List.range 120).map fun n => if n = 57 then [] else [(n : Int), 2 * n + 1]

/-! ## Machine arithmetic -/

theorem wrap32_of_range {x : Int} (h1 : -2147483648 ≤ x) (h2 : x < 2147483648) :
    wrap32 x = x := by
  unfold wrap32; omega

theorem wrap32_range (x : Int) : -2147483648 ≤ wrap32 x ∧ wrap32 x < 2147483648 := by
  unfold wrap32; omega

theorem wrap32_idem (x : Int) : wrap32 (wrap32 x) = wrap32 x := by
  unfold wrap32; omega

theorem add32_zero {s : Int} (h : wrap32 s = s) : add32 s 0 = s := by
  rw [add32, Int.add_zero, h]

theorem wrap32_add32 (a b : Int) : wrap32 (add32 a b) = add32 a b := wrap32_idem _

theorem pow10_eq (n : Nat) (h : (10 : Int) ^ n < 2147483648) : pow10 n = 10 ^ n := by
  induction n with
  | zero => rfl
  | succ n ih =>
    have h10 : (10 : Int) ^ (n + 1) = 10 * 10 ^ n := by ring
    have hpos : (0 : Int) < 10 ^ n := by positivity
    rw [h10] at h
    rw [pow10, ih (by omega), mul32, h10]
    exact wrap32_of_range (by omega) h

theorem mem_loopIndices {i : Int} : i ∈ loopIndices ↔ 0 ≤ i ∧ i ≤ 9 := by
  simp only [loopIndices, List.mem_cons, List.mem_singleton, List.not_mem_nil, or_false]
  omega

/-- Without overflow the index of child `i` is `start + i * 10^level`. -/
theorem childIndex_eq {sequences : List Sequence} {start : Int} {level : Nat}
    (h : InRange sequences start level) {i : Int} (hi : i ∈ loopIndices) :
    childIndex start (pow10 level) i = start + i * 10 ^ level := by
  obtain ⟨h0, -, h2⟩ := h
  obtain ⟨hi0, hi9⟩ := mem_loopIndices.mp hi
  have h10 : (10 : Int) ^ (level + 1) = 10 * 10 ^ level := by ring
  have hpos : (0 : Int) < 10 ^ level := by positivity
  rw [h10] at h2
  have hmul0 : 0 ≤ i * 10 ^ level := Int.mul_nonneg hi0 hpos.le
  have hmul9 : i * 10 ^ level ≤ 9 * 10 ^ level := Int.mul_le_mul_of_nonneg_right hi9 hpos.le
  rw [childIndex, pow10_eq level (by omega), mul32,
    wrap32_of_range (by omega) (by omega), add32]
  exact wrap32_of_range (by omega) (by omega)

/-- The ten children of an in-range node are in range. -/
theorem InRange.child {sequences : List Sequence} {start : Int} {level : Nat}
    (h : InRange sequences start (level + 1)) {i : Int} (hi : i ∈ loopIndices) :
    InRange sequences (start + i * 10 ^ (level + 1)) level := by
  obtain ⟨h0, h1, h2⟩ := h
  obtain ⟨hi0, hi9⟩ := mem_loopIndices.mp hi
  have h10 : (10 : Int) ^ (level + 1 + 1) = 10 * 10 ^ (level + 1) := by ring
  have hpos : (0 : Int) < 10 ^ (level + 1) := by positivity
  rw [h10] at h1 h2
  have hmul0 : 0 ≤ i * 10 ^ (level + 1) := Int.mul_nonneg hi0 hpos.le
  have hmul9 : i * 10 ^ (level + 1) ≤ 9 * 10 ^ (level + 1) :=
    Int.mul_le_mul_of_nonneg_right hi9 hpos.le
  exact ⟨by omega, by omega, by omega⟩

/-- A leaf read of an in-range level-0 node returns the sequence stored there. -/
theorem index_leaf {sequences : List Sequence} {start : Int}
    (h : InRange sequences start 0) {i : Int} (hi : i ∈ loopIndices) :
    index sequences (start + i) = .ret (seqAt sequences (start + i)) := by
  obtain ⟨h0, h1, -⟩ := h
  obtain ⟨hi0, hi9⟩ := mem_loopIndices.mp hi
  have hlt : (start + i).toNat < sequences.length := by
    have : ((10 : Int) ^ (0 + 1)) = 10 := by norm_num
    omega
  simp only [index, seqAt, show 0 ≤ start + i by omega, if_true,
    List.getElem?_eq_getElem hlt, Option.getD_some]

/-! ## The loop -/

/-- A loop whose body, at every `i`, either adds `val i` to the sum or leaves with `r0`
(at the `i` that are `bad`): it leaves with `r0` when some `i` is bad, and otherwise
finishes on the `int` sum of the `val i`. -/
theorem forLoop_spec {ρ : Type} (body : Int → Int → Step ρ) (finish : Int → Outcome ρ)
    (val : Int → Int) (bad : Int → Prop) (r0 : Outcome ρ) :
    ∀ (is : List Int) (sum : Int), wrap32 sum = sum →
      (∀ i ∈ is, ¬ bad i → ∀ s, wrap32 s = s → body i s = .next (add32 s (val i))) →
      (∀ i ∈ is, bad i → ∀ s, wrap32 s = s → body i s = .exit r0) →
      ((∃ i ∈ is, bad i) → forLoop body finish is sum = r0) ∧
      ((∀ i ∈ is, ¬ bad i) →
        forLoop body finish is sum = finish (is.foldl (fun s i => add32 s (val i)) sum)) := by
  intro is
  induction is with
  | nil =>
    intro sum _ _ _
    exact ⟨fun ⟨i, hi, _⟩ => absurd hi (List.not_mem_nil i), fun _ => rfl⟩
  | cons j rest ih =>
    intro sum hsum hgood hbad
    have ihr := fun s hs => ih s hs
      (fun i hi => hgood i (List.mem_cons_of_mem j hi))
      (fun i hi => hbad i (List.mem_cons_of_mem j hi))
    by_cases hj : bad j
    · have hb := hbad j (List.mem_cons_self j rest) hj sum hsum
      refine ⟨fun _ => by simp only [forLoop, hb], fun hall => ?_⟩
      exact absurd hj (hall j (List.mem_cons_self j rest))
    · have hg := hgood j (List.mem_cons_self j rest) hj sum hsum
      refine ⟨fun ⟨i, hi, hbi⟩ => ?_, fun hall => ?_⟩
      · rcases List.mem_cons.mp hi with rfl | hi
        · exact absurd hbi hj
        · simp only [forLoop, hg]
          exact (ihr _ (wrap32_add32 _ _)).1 ⟨i, hi, hbi⟩
      · simp only [forLoop, hg, List.foldl_cons]
        exact (ihr _ (wrap32_add32 _ _)).2 fun i hi => hall i (List.mem_cons_of_mem j hi)

/-- A loop whose body always adds `val i` finishes on the `int` sum of the `val i`. -/
theorem forLoop_total {ρ : Type} (body : Int → Int → Step ρ) (finish : Int → Outcome ρ)
    (val : Int → Int) (is : List Int)
    (h : ∀ i ∈ is, ∀ s, wrap32 s = s → body i s = .next (add32 s (val i))) :
    forLoop body finish is 0 = finish (is.foldl (fun s i => add32 s (val i)) 0) :=
  (forLoop_spec body finish val (fun _ => False) (finish 0) is 0 rfl
    (fun i hi _ => h i hi) (fun _ _ hf => hf.elim)).2 fun _ _ hf => hf

/-! ## Leaves of a subtree -/

theorem mem_subtree {sequences : List Sequence} {start : Int} {level : Nat} {seq : Sequence} :
    seq ∈ subtree sequences start level ↔
      ∃ j : Nat, j < 10 ^ (level + 1) ∧ sequences[start.toNat + j]? = some seq := by
  unfold subtree
  rw [List.mem_iff_getElem?]
  constructor
  · rintro ⟨n, hn⟩
    rw [List.getElem?_take] at hn
    split at hn
    · rw [List.getElem?_drop] at hn
      exact ⟨n, by assumption, hn⟩
    · cases hn
  · rintro ⟨j, hj, hs⟩
    refine ⟨j, ?_⟩
    rw [List.getElem?_take, if_pos hj, List.getElem?_drop]
    exact hs

/-- A level-0 node has an empty leaf exactly when one of its ten sequences is empty. -/
theorem empty_mem_subtree_zero {sequences : List Sequence} {start : Int}
    (h : InRange sequences start 0) :
    [] ∈ subtree sequences start 0 ↔ ∃ i ∈ loopIndices, seqAt sequences (start + i) = [] := by
  obtain ⟨h0, h1, -⟩ := h
  have h10 : ((10 : Int) ^ (0 + 1)) = 10 := by norm_num
  rw [mem_subtree]
  constructor
  · rintro ⟨j, hj, hs⟩
    have hj10 : j < 10 := by simpa using hj
    refine ⟨(j : Int), mem_loopIndices.mpr ⟨by omega, by omega⟩, ?_⟩
    have : (start + (j : Int)).toNat = start.toNat + j := by omega
    rw [seqAt, this, hs]; rfl
  · rintro ⟨i, hi, hs⟩
    obtain ⟨hi0, hi9⟩ := mem_loopIndices.mp hi
    refine ⟨i.toNat, by norm_num; omega, ?_⟩
    have hidx : start.toNat + i.toNat = (start + i).toNat := by omega
    have hlt : (start + i).toNat < sequences.length := by omega
    rw [hidx, List.getElem?_eq_getElem hlt]
    rw [seqAt, List.getElem?_eq_getElem hlt] at hs
    exact congrArg some hs

/-- A node above the leaves has an empty leaf exactly when one of its ten children has one. -/
theorem empty_mem_subtree_succ {sequences : List Sequence} {start : Int} {level : Nat}
    (h : InRange sequences start (level + 1)) :
    [] ∈ subtree sequences start (level + 1) ↔
      ∃ i ∈ loopIndices, [] ∈ subtree sequences (start + i * 10 ^ (level + 1)) level := by
  obtain ⟨h0, -, -⟩ := h
  have hposN : 0 < 10 ^ (level + 1) := by positivity
  have hpos : (0 : Int) < 10 ^ (level + 1) := by positivity
  have hcast : ((10 ^ (level + 1) : Nat) : Int) = 10 ^ (level + 1) := by push_cast; rfl
  constructor
  · intro hmem
    obtain ⟨j, hj, hs⟩ := mem_subtree.mp hmem
    obtain ⟨q, r, hq, hr, hdm⟩ : ∃ q r : Nat, q < 10 ∧ r < 10 ^ (level + 1) ∧
        q * 10 ^ (level + 1) + r = j := by
      refine ⟨j / 10 ^ (level + 1), j % 10 ^ (level + 1), ?_, Nat.mod_lt _ hposN, ?_⟩
      · rw [Nat.div_lt_iff_lt_mul hposN]
        calc j < 10 ^ (level + 1 + 1) := hj
          _ = 10 * 10 ^ (level + 1) := by ring
      · rw [Nat.mul_comm]; exact Nat.div_add_mod j _
    refine ⟨(q : Int), mem_loopIndices.mpr ⟨by omega, by omega⟩, mem_subtree.mpr ⟨r, hr, ?_⟩⟩
    have hidx : (start + (q : Int) * 10 ^ (level + 1)).toNat + r = start.toNat + j := by
      have hnn : (0 : Int) ≤ (q : Int) * 10 ^ (level + 1) :=
        Int.mul_nonneg (by omega) hpos.le
      zify
      rw [Int.toNat_of_nonneg (by omega), Int.toNat_of_nonneg h0, ← hdm]
      push_cast
      ring
    rw [hidx]; exact hs
  · rintro ⟨i, hi, hmem⟩
    obtain ⟨hi0, hi9⟩ := mem_loopIndices.mp hi
    obtain ⟨j, hj, hs⟩ := mem_subtree.mp hmem
    have hnn : (0 : Int) ≤ i * 10 ^ (level + 1) := Int.mul_nonneg hi0 hpos.le
    have hidx : (start + i * 10 ^ (level + 1)).toNat + j
        = start.toNat + (i.toNat * 10 ^ (level + 1) + j) := by
      zify
      rw [Int.toNat_of_nonneg (by omega), Int.toNat_of_nonneg h0, Int.toNat_of_nonneg hi0]
      ring
    refine mem_subtree.mpr ⟨i.toNat * 10 ^ (level + 1) + j, ?_, by rw [← hidx]; exact hs⟩
    have hi9N : i.toNat ≤ 9 := by omega
    calc i.toNat * 10 ^ (level + 1) + j
        < i.toNat * 10 ^ (level + 1) + 10 ^ (level + 1) := by omega
      _ = (i.toNat + 1) * 10 ^ (level + 1) := by ring
      _ ≤ 10 * 10 ^ (level + 1) := Nat.mul_le_mul_right _ (by omega)
      _ = 10 ^ (level + 1 + 1) := by ring

/-! ## The aggregators on an in-range node -/

theorem average_ret_nonempty {seq : Sequence} (h : seq ≠ []) (res : Int) :
    average_ret seq res = (true, average_ignore seq) := by
  cases seq with
  | nil => exact absurd rfl h
  | cons a l => rfl

/-- In range, the silent-default aggregator returns the value of the subtree. -/
theorem ignore_eq {sequences : List Sequence} {level : Nat} :
    ∀ {start : Int}, InRange sequences start level →
      multilevel_average_ignore sequences start level = .ret (treeValue sequences start level) := by
  induction level with
  | zero =>
    intro start h
    rw [multilevel_average_ignore, treeValue]
    apply forLoop_total
    intro i hi s _
    have hc := childIndex_eq h hi
    rw [pow_zero, mul_one] at hc
    rw [ignore_body, hc, index_leaf h hi]
    rfl
  | succ level ih =>
    intro start h
    rw [multilevel_average_ignore, treeValue]
    apply forLoop_total
    intro i hi s _
    rw [ignore_body, childIndex_eq h hi, ih (h.child hi)]
    rfl

/-- In range, the strict out-parameter aggregator returns `false` and leaves `res` alone when
a leaf of the subtree is empty, and otherwise returns `true` and writes the value of the subtree. -/
theorem ret_char {sequences : List Sequence} {level : Nat} :
    ∀ {start : Int} (res : Int), InRange sequences start level →
      ([] ∈ subtree sequences start level →
        multilevel_average_ret sequences start level res = .ret (false, res)) ∧
      ([] ∉ subtree sequences start level →
        multilevel_average_ret sequences start level res
          = .ret (true, treeValue sequences start level)) := by
  induction level with
  | zero =>
    intro start res h
    have key := forLoop_spec
      (ret_body (fun idx val => (index sequences idx).map fun seq => average_ret seq val)
        res start (pow10 0))
      (fun sum => .ret (true, div32 sum 10))
      (fun i => average_ignore (seqAt sequences (start + i)))
      (fun i => seqAt sequences (start + i) = []) (.ret (false, res)) loopIndices 0 rfl
      (by
        intro i hi hne s _
        have hc := childIndex_eq h hi
        rw [pow_zero, mul_one] at hc
        rw [ret_body, hc, index_leaf h hi, Outcome.map, average_ret_nonempty hne]
        rfl)
      (by
        intro i hi he s _
        have hc := childIndex_eq h hi
        rw [pow_zero, mul_one] at hc
        rw [ret_body, hc, index_leaf h hi, he]
        rfl)
    rw [multilevel_average_ret, treeValue, empty_mem_subtree_zero h]
    exact ⟨key.1, fun hno => key.2 fun i hi he => hno ⟨i, hi, he⟩⟩
  | succ level ih =>
    intro start res h
    have key := forLoop_spec
      (ret_body (fun idx val => multilevel_average_ret sequences idx level val)
        res start (pow10 (level + 1)))
      (fun sum => .ret (true, div32 sum 10))
      (fun i => treeValue sequences (start + i * 10 ^ (level + 1)) level)
      (fun i => [] ∈ subtree sequences (start + i * 10 ^ (level + 1)) level)
      (.ret (false, res)) loopIndices 0 rfl
      (by
        intro i hi hne s _
        rw [ret_body, childIndex_eq h hi, ((ih 0 (h.child hi)).2 hne)]
        rfl)
      (by
        intro i hi he s _
        rw [ret_body, childIndex_eq h hi, ((ih 0 (h.child hi)).1 he)]
        rfl)
    rw [multilevel_average_ret, treeValue, empty_mem_subtree_succ h]
    exact ⟨key.1, fun hno => key.2 fun i hi he => hno ⟨i, hi, he⟩⟩

theorem average_except_nonempty {seq : Sequence} (h : seq ≠ []) :
    average_except seq = .ret (average_ignore seq) := by
  cases seq with
  | nil => exact absurd rfl h
  | cons a l => rfl

theorem average_expected_nonempty {seq : Sequence} (h : seq ≠ []) :
    average_expected seq = .ret (.value (average_ignore seq)) := by
  cases seq with
  | nil => exact absurd rfl h
  | cons a l => rfl

theorem average_expectedEC_nonempty {seq : Sequence} (h : seq ≠ []) :
    average_expectedEC seq = .value (average_ignore seq) := by
  cases seq with
  | nil => exact absurd rfl h
  | cons a l => rfl

/-- In range, the strict immediate-raise aggregator throws `runtime_error("empty sequence")` when a
leaf of the subtree is empty, and otherwise returns the value of the subtree. -/
theorem except_char {sequences : List Sequence} {level : Nat} :
    ∀ {start : Int}, InRange sequences start level →
      ([] ∈ subtree sequences start level →
        multilevel_average_except sequences start level = .raise (runtime_error "empty sequence")) ∧
      ([] ∉ subtree sequences start level →
        multilevel_average_except sequences start level
          = .ret (id (treeValue sequences start level))) := by
  induction level with
  | zero =>
    intro start h
    have key := forLoop_spec
      (except_body (fun idx => (index sequences idx).bind average_except) start (pow10 0))
      (fun sum => .ret (div32 sum 10))
      (fun i => average_ignore (seqAt sequences (start + i)))
      (fun i => seqAt sequences (start + i) = []) (.raise (runtime_error "empty sequence")) loopIndices 0 rfl
      (by
        intro i hi hne s _
        have hc := childIndex_eq h hi
        rw [pow_zero, mul_one] at hc
        rw [except_body, hc, index_leaf h hi]
        simp only [Outcome.map, Outcome.bind, average_except_nonempty hne]
        rfl)
      (by
        intro i hi he s _
        have hc := childIndex_eq h hi
        rw [pow_zero, mul_one] at hc
        rw [except_body, hc, index_leaf h hi, he]
        rfl)
    rw [multilevel_average_except, treeValue, empty_mem_subtree_zero h]
    exact ⟨key.1, fun hno => key.2 fun i hi he => hno ⟨i, hi, he⟩⟩
  | succ level ih =>
    intro start h
    have key := forLoop_spec
      (except_body (fun idx => multilevel_average_except sequences idx level) start (pow10 (level + 1)))
      (fun sum => .ret (div32 sum 10))
      (fun i => treeValue sequences (start + i * 10 ^ (level + 1)) level)
      (fun i => [] ∈ subtree sequences (start + i * 10 ^ (level + 1)) level)
      (.raise (runtime_error "empty sequence")) loopIndices 0 rfl
      (by
        intro i hi hne s _
        rw [except_body, childIndex_eq h hi, ((ih (h.child hi)).2 hne)]
        rfl)
      (by
        intro i hi he s _
        rw [except_body, childIndex_eq h hi, ((ih (h.child hi)).1 he)]
        rfl)
    rw [multilevel_average_except, treeValue, empty_mem_subtree_succ h]
    exact ⟨key.1, fun hno => key.2 fun i hi he => hno ⟨i, hi, he⟩⟩

/-- In range, the strict aggregator over `Expected` throws `runtime_error("empty sequence")` when a
leaf of the subtree is empty, and otherwise returns the value of the subtree. -/
theorem expected_char {sequences : List Sequence} {level : Nat} :
    ∀ {start : Int}, InRange sequences start level →
      ([] ∈ subtree sequences start level →
        multilevel_average_expected sequences start level = .raise (runtime_error "empty sequence")) ∧
      ([] ∉ subtree sequences start level →
        multilevel_average_expected sequences start level
          = .ret (id (treeValue sequences start level))) := by
  induction level with
  | zero =>
    intro start h
    have key := forLoop_spec
      (expected_body (fun idx => (index sequences idx).bind average_expected) start (pow10 0))
      (fun sum => .ret (div32 sum 10))
      (fun i => average_ignore (seqAt sequences (start + i)))
      (fun i => seqAt sequences (start + i) = []) (.raise (runtime_error "empty sequence")) loopIndices 0 rfl
      (by
        intro i hi hne s _
        have hc := childIndex_eq h hi
        rw [pow_zero, mul_one] at hc
        rw [expected_body, hc, index_leaf h hi]
        simp only [Outcome.map, Outcome.bind, average_expected_nonempty hne]
        rfl)
      (by
        intro i hi he s _
        have hc := childIndex_eq h hi
        rw [pow_zero, mul_one] at hc
        rw [expected_body, hc, index_leaf h hi, he]
        rfl)
    rw [multilevel_average_expected, treeValue, empty_mem_subtree_zero h]
    exact ⟨key.1, fun hno => key.2 fun i hi he => hno ⟨i, hi, he⟩⟩
  | succ level ih =>
    intro start h
    have key := forLoop_spec
      (expected_body (fun idx => (multilevel_average_expected sequences idx level).map Expected.value) start (pow10 (level + 1)))
      (fun sum => .ret (div32 sum 10))
      (fun i => treeValue sequences (start + i * 10 ^ (level + 1)) level)
      (fun i => [] ∈ subtree sequences (start + i * 10 ^ (level + 1)) level)
      (.raise (runtime_error "empty sequence")) loopIndices 0 rfl
      (by
        intro i hi hne s _
        rw [expected_body, childIndex_eq h hi, ((ih (h.child hi)).2 hne)]
        rfl)
      (by
        intro i hi he s _
        rw [expected_body, childIndex_eq h hi, ((ih (h.child hi)).1 he)]
        rfl)
    rw [multilevel_average_expected, treeValue, empty_mem_subtree_succ h]
    exact ⟨key.1, fun hno => key.2 fun i hi he => hno ⟨i, hi, he⟩⟩

/-- In range, the strict aggregator over `ExpectedEC` returns the error code `1` when a leaf of
the subtree is empty, and otherwise returns the value of the subtree. -/
theorem expectedEC_char {sequences : List Sequence} {level : Nat} :
    ∀ {start : Int}, InRange sequences start level →
      ([] ∈ subtree sequences start level →
        multilevel_average_expectedEC sequences start level = .ret (.errorCode 1)) ∧
      ([] ∉ subtree sequences start level →
        multilevel_average_expectedEC sequences start level
          = .ret (ExpectedEC.value (treeValue sequences start level))) := by
  induction level with
  | zero =>
    intro start h
    have key := forLoop_spec
      (expectedEC_body (fun idx => (index sequences idx).map average_expectedEC) start (pow10 0))
      (fun sum => .ret (.value (div32 sum 10)))
      (fun i => average_ignore (seqAt sequences (start + i)))
      (fun i => seqAt sequences (start + i) = []) (.ret (.errorCode 1)) loopIndices 0 rfl
      (by
        intro i hi hne s _
        have hc := childIndex_eq h hi
        rw [pow_zero, mul_one] at hc
        rw [expectedEC_body, hc, index_leaf h hi]
        simp only [Outcome.map, Outcome.bind, average_expectedEC_nonempty hne]
        rfl)
      (by
        intro i hi he s _
        have hc := childIndex_eq h hi
        rw [pow_zero, mul_one] at hc
        rw [expectedEC_body, hc, index_leaf h hi, he]
        rfl)
    rw [multilevel_average_expectedEC, treeValue, empty_mem_subtree_zero h]
    exact ⟨key.1, fun hno => key.2 fun i hi he => hno ⟨i, hi, he⟩⟩
  | succ level ih =>
    intro start h
    have key := forLoop_spec
      (expectedEC_body (fun idx => multilevel_average_expectedEC sequences idx level) start (pow10 (level + 1)))
      (fun sum => .ret (.value (div32 sum 10)))
      (fun i => treeValue sequences (start + i * 10 ^ (level + 1)) level)
      (fun i => [] ∈ subtree sequences (start + i * 10 ^ (level + 1)) level)
      (.ret (.errorCode 1)) loopIndices 0 rfl
      (by
        intro i hi hne s _
        rw [expectedEC_body, childIndex_eq h hi, ((ih (h.child hi)).2 hne)]
        rfl)
      (by
        intro i hi he s _
        rw [expectedEC_body, childIndex_eq h hi, ((ih (h.child hi)).1 he)]
        rfl)
    rw [multilevel_average_expectedEC, treeValue, empty_mem_subtree_succ h]
    exact ⟨key.1, fun hno => key.2 fun i hi he => hno ⟨i, hi, he⟩⟩

/-- In range, the tolerant out-parameter aggregator returns `true` and writes the value of the subtree. -/
theorem ret_ign_eq {sequences : List Sequence} {level : Nat} :
    ∀ {start : Int} (res : Int), InRange sequences start level →
      multilevel_average_ret_ign sequences start level res = .ret (true, treeValue sequences start level) := by
  induction level with
  | zero =>
    intro start res h
    rw [multilevel_average_ret_ign, treeValue]
    apply forLoop_total
    intro i hi s hs
    have hc := childIndex_eq h hi
    rw [pow_zero, mul_one] at hc
    rw [ret_ign_body, hc, index_leaf h hi]
    by_cases he : seqAt sequences (start + i) = []
    · rw [he]
      exact congrArg Step.next (add32_zero hs).symm
    · simp only [Outcome.map, Outcome.bind, average_ret_nonempty he]
      rfl
  | succ level ih =>
    intro start res h
    rw [multilevel_average_ret_ign, treeValue]
    apply forLoop_total
    intro i hi s _
    rw [ret_ign_body, childIndex_eq h hi, ih 0 (h.child hi)]
    rfl

/-- In range, the tolerant immediate-raise aggregator returns the value of the subtree. -/
theorem except_ign_eq {sequences : List Sequence} {level : Nat} :
    ∀ {start : Int}, InRange sequences start level →
      multilevel_average_except_ign sequences start level = .ret (treeValue sequences start level) := by
  induction level with
  | zero =>
    intro start h
    rw [multilevel_average_except_ign, treeValue]
    apply forLoop_total
    intro i hi s hs
    have hc := childIndex_eq h hi
    rw [pow_zero, mul_one] at hc
    rw [except_ign_body, hc, index_leaf h hi]
    by_cases he : seqAt sequences (start + i) = []
    · rw [he]
      exact congrArg Step.next (add32_zero hs).symm
    · simp only [Outcome.map, Outcome.bind, average_except_nonempty he]
  | succ level ih =>
    intro start h
    rw [multilevel_average_except_ign, treeValue]
    apply forLoop_total
    intro i hi s _
    rw [except_ign_body, childIndex_eq h hi, ih (h.child hi)]

/-- In range, the tolerant aggregator over `Expected` returns the value of the subtree. -/
theorem expected_ign_eq {sequences : List Sequence} {level : Nat} :
    ∀ {start : Int}, InRange sequences start level →
      multilevel_average_expected_ign sequences start level = .ret (treeValue sequences start level) := by
  induction level with
  | zero =>
    intro start h
    rw [multilevel_average_expected_ign, treeValue]
    apply forLoop_total
    intro i hi s hs
    have hc := childIndex_eq h hi
    rw [pow_zero, mul_one] at hc
    rw [expected_ign_body, hc, index_leaf h hi]
    by_cases he : seqAt sequences (start + i) = []
    · rw [he]
      exact congrArg Step.next (add32_zero hs).symm
    · simp only [Outcome.map, Outcome.bind, average_expected_nonempty he]
      rfl
  | succ level ih =>
    intro start h
    rw [multilevel_average_expected_ign, treeValue]
    apply forLoop_total
    intro i hi s _
    rw [expected_ign_body, childIndex_eq h hi, ih (h.child hi)]
    rfl

/-- In range, the tolerant aggregator over `ExpectedEC` returns the value of the subtree. -/
theorem expectedEC_ign_eq {sequences : List Sequence} {level : Nat} :
    ∀ {start : Int}, InRange sequences start level →
      multilevel_average_expectedEC_ign sequences start level = .ret (treeValue sequences start level) := by
  induction level with
  | zero =>
    intro start h
    rw [multilevel_average_expectedEC_ign, treeValue]
    apply forLoop_total
    intro i hi s hs
    have hc := childIndex_eq h hi
    rw [pow_zero, mul_one] at hc
    rw [expectedEC_ign_body, hc, index_leaf h hi]
    by_cases he : seqAt sequences (start + i) = []
    · rw [he]
      exact congrArg Step.next (add32_zero hs).symm
    · simp only [Outcome.map, Outcome.bind, average_expectedEC_nonempty he]
      rfl
  | succ level ih =>
    intro start h
    rw [multilevel_average_expectedEC_ign, treeValue]
    apply forLoop_total
    intro i hi s _
    rw [expectedEC_ign_body, childIndex_eq h hi, ih (h.child hi)]
    rfl

/-! ## Sums -/

theorem wrap32_add_left (a b : Int) : wrap32 (wrap32 a + b) = wrap32 (a + b) := by
  unfold wrap32; omega

/-- The running `int` sum of a loop is the reduced mathematical sum. -/
theorem foldl_add32 (val : Int → Int) :
    ∀ (is : List Int) (s : Int), wrap32 s = s →
      is.foldl (fun s i => add32 s (val i)) s = wrap32 (s + (is.map val).sum) := by
  intro is
  induction is with
  | nil => intro s hs; simpa using hs.symm
  | cons j rest ih =>
    intro s _
    rw [List.foldl_cons, ih _ (wrap32_add32 _ _), add32, wrap32_add_left, List.map_cons,
      List.sum_cons, Int.add_assoc]

theorem accumulate_eq (seq : Sequence) : accumulate seq = wrap32 seq.sum := by
  have h := foldl_add32 id seq 0 rfl
  rw [List.map_id, Int.zero_add] at h
  exact h

/-- Truncating division by a positive divisor keeps an `int` in range. -/
theorem tdiv_range {a b : Int} (hb : 0 < b) (h1 : -2147483648 ≤ a) (h2 : a < 2147483648) :
    -2147483648 ≤ a.tdiv b ∧ a.tdiv b < 2147483648 := by
  rcases Int.le_total 0 a with ha | ha
  · rw [Int.tdiv_eq_ediv ha hb.le]
    have hle := Int.ediv_le_self b ha
    have hnn := Int.ediv_nonneg ha hb.le
    omega
  · have hna : 0 ≤ -a := by omega
    have heq : a.tdiv b = -((-a) / b) := by
      rw [← Int.tdiv_eq_ediv hna hb.le, Int.neg_tdiv, Int.neg_neg]
    have hle := Int.ediv_le_self b hna
    have hnn := Int.ediv_nonneg hna hb.le
    omega

theorem div32_ten (x : Int) : div32 (wrap32 x) 10 = Int.tdiv (wrap32 x) 10 := by
  obtain ⟨h1, h2⟩ := wrap32_range x
  obtain ⟨h3, h4⟩ := tdiv_range (by norm_num : (0 : Int) < 10) h1 h2
  exact wrap32_of_range h3 h4

theorem div32_foldl (val : Int → Int) (is : List Int) :
    div32 (is.foldl (fun s i => add32 s (val i)) 0) 10 = tenthOfSum (is.map val) := by
  rw [foldl_add32 val is 0 rfl, Int.zero_add, div32_ten, tenthOfSum]

theorem treeValue_zero (sequences : List Sequence) (start : Int) :
    treeValue sequences start 0
      = tenthOfSum (loopIndices.map fun i => average_ignore (seqAt sequences (start + i))) := by
  rw [treeValue, div32_foldl]

theorem treeValue_succ (sequences : List Sequence) (start : Int) (level : Nat) :
    treeValue sequences start (level + 1)
      = tenthOfSum (loopIndices.map fun i =>
          treeValue sequences (start + i * 10 ^ (level + 1)) level) := by
  rw [treeValue, div32_foldl]

/-- Entries that are dropped by `filterMap` do not change a sum when they are `0`. -/
theorem sum_filterMap_eq (f : Int → Option Int) (val : Int → Int) :
    ∀ is : List Int, (∀ i ∈ is, f i = some (val i) ∨ (f i = none ∧ val i = 0)) →
      (is.filterMap f).sum = (is.map val).sum := by
  intro is
  induction is with
  | nil => intro _; rfl
  | cons j rest ih =>
    intro h
    have ihr := ih fun i hi => h i (List.mem_cons_of_mem j hi)
    rcases h j (List.mem_cons_self j rest) with hj | ⟨hj, h0⟩
    · rw [List.filterMap_cons_some hj, List.sum_cons, List.map_cons, List.sum_cons, ihr]
    · rw [List.filterMap_cons_none hj, List.map_cons, List.sum_cons, ihr, h0, Int.zero_add]

/-- The leaves of an in-range level-0 node are its ten sequences, in index order. -/
theorem subtree_zero_eq {sequences : List Sequence} {start : Int}
    (h : InRange sequences start 0) :
    subtree sequences start 0 = loopIndices.map fun i => seqAt sequences (start + i) := by
  obtain ⟨h0, h1, -⟩ := h
  have h10 : ((10 : Int) ^ (0 + 1)) = 10 := by norm_num
  apply List.ext_getElem?
  intro n
  unfold subtree
  rw [List.getElem?_take, List.getElem?_drop, List.getElem?_map]
  by_cases hn : n < 10
  · have hn2 : n < 10 ^ (0 + 1) := by simpa using hn
    have hlt : start.toNat + n < sequences.length := by omega
    have hidx : (loopIndices[n]? : Option Int) = some (n : Int) := by
      interval_cases n <;> rfl
    have hnat : (start + (n : Int)).toNat = start.toNat + n := by omega
    rw [if_pos hn2, hidx, Option.map_some', seqAt, hnat, List.getElem?_eq_getElem hlt,
      Option.getD_some]
  · have hn2 : ¬ n < 10 ^ (0 + 1) := by simpa using hn
    have hidx : (loopIndices[n]? : Option Int) = none :=
      List.getElem?_eq_none (by simp only [loopIndices, List.length_cons, List.length_nil]; omega)
    rw [if_neg hn2, hidx, Option.map_none']

/-! ## Children that succeeded -/

theorem ret_ign_succeeded {sequences : List Sequence} {start : Int} {level : Nat}
    (h : InRange sequences start level) :
    tenthOfSum (succeeded (ret_ign_child sequences level) flagged start (pow10 level))
      = treeValue sequences start level := by
  cases level with
  | zero =>
    rw [treeValue_zero, tenthOfSum, tenthOfSum, succeeded]
    refine congrArg (fun x => Int.tdiv (wrap32 x) 10) (sum_filterMap_eq _ _ _ fun i hi => ?_)
    have hc := childIndex_eq h hi
    rw [pow_zero, mul_one] at hc
    simp only [hc, ret_ign_child, index_leaf h hi]
    by_cases he : seqAt sequences (start + i) = []
    · rw [he]; exact Or.inr ⟨rfl, rfl⟩
    · simp only [Outcome.map, Outcome.bind, average_ret_nonempty he]
      exact Or.inl rfl
  | succ level =>
    rw [treeValue_succ, tenthOfSum, tenthOfSum, succeeded]
    refine congrArg (fun x => Int.tdiv (wrap32 x) 10) (sum_filterMap_eq _ _ _ fun i hi => ?_)
    simp only [childIndex_eq h hi, ret_ign_child, ret_ign_eq 0 (h.child hi)]
    exact Or.inl rfl

theorem except_ign_succeeded {sequences : List Sequence} {start : Int} {level : Nat}
    (h : InRange sequences start level) :
    tenthOfSum (succeeded (except_ign_child sequences level) some start (pow10 level))
      = treeValue sequences start level := by
  cases level with
  | zero =>
    rw [treeValue_zero, tenthOfSum, tenthOfSum, succeeded]
    refine congrArg (fun x => Int.tdiv (wrap32 x) 10) (sum_filterMap_eq _ _ _ fun i hi => ?_)
    have hc := childIndex_eq h hi
    rw [pow_zero, mul_one] at hc
    simp only [hc, except_ign_child, index_leaf h hi]
    by_cases he : seqAt sequences (start + i) = []
    · rw [he]; exact Or.inr ⟨rfl, rfl⟩
    · simp only [Outcome.map, Outcome.bind, average_except_nonempty he]
      exact Or.inl trivial
  | succ level =>
    rw [treeValue_succ, tenthOfSum, tenthOfSum, succeeded]
    refine congrArg (fun x => Int.tdiv (wrap32 x) 10) (sum_filterMap_eq _ _ _ fun i hi => ?_)
    simp only [childIndex_eq h hi, except_ign_child, except_ign_eq (h.child hi)]
    exact Or.inl trivial

theorem expected_ign_succeeded {sequences : List Sequence} {start : Int} {level : Nat}
    (h : InRange sequences start level) :
    tenthOfSum (succeeded (expected_ign_child sequences level) Expected.held start (pow10 level))
      = treeValue sequences start level := by
  cases level with
  | zero =>
    rw [treeValue_zero, tenthOfSum, tenthOfSum, succeeded]
    refine congrArg (fun x => Int.tdiv (wrap32 x) 10) (sum_filterMap_eq _ _ _ fun i hi => ?_)
    have hc := childIndex_eq h hi
    rw [pow_zero, mul_one] at hc
    simp only [hc, expected_ign_child, index_leaf h hi]
    by_cases he : seqAt sequences (start + i) = []
    · rw [he]; exact Or.inr ⟨rfl, rfl⟩
    · simp only [Outcome.map, Outcome.bind, average_expected_nonempty he]
      exact Or.inl rfl
  | succ level =>
    rw [treeValue_succ, tenthOfSum, tenthOfSum, succeeded]
    refine congrArg (fun x => Int.tdiv (wrap32 x) 10) (sum_filterMap_eq _ _ _ fun i hi => ?_)
    simp only [childIndex_eq h hi, expected_ign_child, expected_ign_eq (h.child hi)]
    exact Or.inl rfl

theorem expectedEC_ign_succeeded {sequences : List Sequence} {start : Int} {level : Nat}
    (h : InRange sequences start level) :
    tenthOfSum (succeeded (expectedEC_ign_child sequences level) ExpectedEC.held start (pow10 level))
      = treeValue sequences start level := by
  cases level with
  | zero =>
    rw [treeValue_zero, tenthOfSum, tenthOfSum, succeeded]
    refine congrArg (fun x => Int.tdiv (wrap32 x) 10) (sum_filterMap_eq _ _ _ fun i hi => ?_)
    have hc := childIndex_eq h hi
    rw [pow_zero, mul_one] at hc
    simp only [hc, expectedEC_ign_child, index_leaf h hi]
    by_cases he : seqAt sequences (start + i) = []
    · rw [he]; exact Or.inr ⟨rfl, rfl⟩
    · simp only [Outcome.map, Outcome.bind, average_expectedEC_nonempty he]
      exact Or.inl rfl
  | succ level =>
    rw [treeValue_succ, tenthOfSum, tenthOfSum, succeeded]
    refine congrArg (fun x => Int.tdiv (wrap32 x) 10) (sum_filterMap_eq _ _ _ fun i hi => ?_)
    simp only [childIndex_eq h hi, expectedEC_ign_child, expectedEC_ign_eq (h.child hi)]
    exact Or.inl rfl

/-- A level-0 node all of whose sequences are empty has value `0`. -/
theorem treeValue_all_empty {sequences : List Sequence} {start : Int}
    (h : InRange sequences start 0) (hall : ∀ seq ∈ subtree sequences start 0, seq = []) :
    treeValue sequences start 0 = 0 := by
  rw [subtree_zero_eq h] at hall
  have hz : (loopIndices.map fun i => average_ignore (seqAt sequences (start + i)))
      = loopIndices.map fun _ => (0 : Int) := by
    apply List.map_congr_left
    intro i hi
    rw [hall _ (List.mem_map_of_mem _ hi)]
    rfl
  rw [treeValue_zero, hz]
  rfl

/-! ## Strict aggregators -/

/-- C1. On an in-range node none of whose sequences is empty, the strict aggregators agree:
`multilevel_average_except` and `multilevel_average_expected` return without throwing,
`multilevel_average_expectedEC` returns a valid container, and all three values are the
value `multilevel_average_ret` writes into its result slot (while returning `true`). -/
theorem strict_aggregators_agree (sequences : List Sequence) (start : Int) (level : Nat)
    (res : Int) (hrange : InRange sequences start level)
    (hfull : ∀ seq ∈ subtree sequences start level, seq ≠ []) :
    ∃ v : Int,
      multilevel_average_ret sequences start level res = .ret (true, v) ∧
      multilevel_average_except sequences start level = .ret v ∧
      multilevel_average_expected sequences start level = .ret v ∧
      ∃ c : ExpectedEC Int,
        multilevel_average_expectedEC sequences start level = .ret c ∧
        c.valid = true ∧ c.get = .ret v := by
  have hno : [] ∉ subtree sequences start level := fun hm => hfull [] hm rfl
  exact ⟨treeValue sequences start level, (ret_char res hrange).2 hno,
    (except_char hrange).2 hno, (expected_char hrange).2 hno,
    _, (expectedEC_char hrange).2 hno, rfl, rfl⟩

set_option maxRecDepth 8000 in
theorem strict_aggregators_agree_witness :
    InRange sampleWide 3 1 ∧ (∀ seq ∈ subtree sampleWide 3 1, seq ≠ []) ∧
    ∃ v : Int,
      multilevel_average_ret sampleWide 3 1 55 = .ret (true, v) ∧
      multilevel_average_except sampleWide 3 1 = .ret v ∧
      multilevel_average_expected sampleWide 3 1 = .ret v ∧
      ∃ c : ExpectedEC Int,
        multilevel_average_expectedEC sampleWide 3 1 = .ret c ∧
        c.valid = true ∧ c.get = .ret v :=
  ⟨by decide, by decide, strict_aggregators_agree sampleWide 3 1 55 (by decide) (by decide)⟩

/-- C2. On an in-range node none of whose sequences is empty, `multilevel_average_ret` returns
`true` and the value it writes to `res` is the one `multilevel_average_ignore` returns. -/
theorem ret_eq_ignore_of_full (sequences : List Sequence) (start : Int) (level : Nat)
    (res : Int) (hrange : InRange sequences start level)
    (hfull : ∀ seq ∈ subtree sequences start level, seq ≠ []) :
    ∃ v : Int,
      multilevel_average_ret sequences start level res = .ret (true, v) ∧
      multilevel_average_ignore sequences start level = .ret v :=
  ⟨treeValue sequences start level,
    (ret_char res hrange).2 (fun hm => hfull [] hm rfl), ignore_eq hrange⟩

theorem ret_eq_ignore_of_full_witness :
    InRange sampleFull 2 0 ∧ (∀ seq ∈ subtree sampleFull 2 0, seq ≠ []) ∧
    ∃ v : Int,
      multilevel_average_ret sampleFull 2 0 (-4) = .ret (true, v) ∧
      multilevel_average_ignore sampleFull 2 0 = .ret v :=
  ⟨by decide, by decide, ret_eq_ignore_of_full sampleFull 2 0 (-4) (by decide) (by decide)⟩

theorem subtree_top {sequences : List Sequence} (hlen : (sequences.length : Int) = numSeq) :
    subtree sequences 0 (numLevels - 1) = sequences ∧ InRange sequences 0 (numLevels - 1) := by
  have hn : numSeq = 10000 := by decide
  rw [hn] at hlen
  have hlenN : sequences.length = 10000 := by omega
  refine ⟨?_, ?_⟩
  · show List.take (10 ^ (3 + 1)) (List.drop 0 sequences) = sequences
    rw [List.drop_zero]
    exact List.take_of_length_le (by rw [hlenN]; norm_num)
  · show 0 ≤ (0 : Int) ∧ (0 : Int) + 10 ^ (3 + 1) ≤ (sequences.length : Int) ∧
      (0 : Int) + 10 ^ (3 + 1) ≤ 2147483648
    rw [hlen]; norm_num

/-- C3. In range, `multilevel_average_ret` returns `true` if and only if no sequence with
index in `start .. start + 10^(level+1) - 1` is empty, and returns `false` otherwise. For a
dataset of `numSeq = 10^4` sequences the top-level call `(0, numLevels - 1)` returns `true`
iff none of the sequences is empty, that is, iff the count `zeroCount` of empty sequences
in the dataset is `0`. -/
theorem ret_true_iff_full :
    (∀ (sequences : List Sequence) (start : Int) (level : Nat) (res : Int),
      InRange sequences start level →
        ((∃ v, multilevel_average_ret sequences start level res = .ret (true, v)) ↔
          ∀ seq ∈ subtree sequences start level, seq ≠ []) ∧
        ((∃ seq ∈ subtree sequences start level, seq = []) →
          ∃ r, multilevel_average_ret sequences start level res = .ret (false, r))) ∧
    (∀ (sequences : List Sequence) (res : Int) (zeroCount : Nat),
      (sequences.length : Int) = numSeq → sequences.count [] = zeroCount →
        ((∃ v, multilevel_average_ret sequences 0 (numLevels - 1) res = .ret (true, v)) ↔
          ∀ seq ∈ sequences, seq ≠ []) ∧
        ((∃ v, multilevel_average_ret sequences 0 (numLevels - 1) res = .ret (true, v)) ↔
          zeroCount = 0)) := by
  have general : ∀ (sequences : List Sequence) (start : Int) (level : Nat) (res : Int),
      InRange sequences start level →
        ((∃ v, multilevel_average_ret sequences start level res = .ret (true, v)) ↔
          ∀ seq ∈ subtree sequences start level, seq ≠ []) := by
    intro sequences start level res hrange
    constructor
    · rintro ⟨v, hv⟩ seq hseq rfl
      rw [(ret_char res hrange).1 hseq] at hv
      cases hv
    · intro hfull
      exact ⟨_, (ret_char res hrange).2 fun hm => hfull [] hm rfl⟩
  refine ⟨fun sequences start level res hrange => ⟨general _ _ _ _ hrange, ?_⟩, ?_⟩
  · rintro ⟨seq, hseq, rfl⟩
    exact ⟨res, (ret_char res hrange).1 hseq⟩
  · intro sequences res zeroCount hlen hcount
    obtain ⟨htop, hrange⟩ := subtree_top hlen
    have h := general sequences 0 (numLevels - 1) res hrange
    rw [htop] at h
    refine ⟨h, h.trans ?_⟩
    rw [← hcount, List.count_eq_zero]
    exact ⟨fun hfull hm => hfull [] hm rfl, fun hno seq hseq he => hno (he ▸ hseq)⟩

theorem ret_true_iff_full_witness :
    (InRange sampleHoles 2 0 ∧
      (((∃ v, multilevel_average_ret sampleHoles 2 0 9 = .ret (true, v)) ↔
          ∀ seq ∈ subtree sampleHoles 2 0, seq ≠ []) ∧
        ((∃ seq ∈ subtree sampleHoles 2 0, seq = []) →
          ∃ r, multilevel_average_ret sampleHoles 2 0 9 = .ret (false, r)))) ∧
    (((List.replicate 10000 [5] : List Sequence).length : Int) = numSeq ∧
      (List.replicate 10000 [5] : List Sequence).count [] = 0 ∧
      ((∃ v, multilevel_average_ret (List.replicate 10000 [5]) 0 (numLevels - 1) 9
          = .ret (true, v)) ↔ ∀ seq ∈ (List.replicate 10000 [5] : List Sequence), seq ≠ []) ∧
      ((∃ v, multilevel_average_ret (List.replicate 10000 [5]) 0 (numLevels - 1) 9
          = .ret (true, v)) ↔ 0 = 0)) :=
  have hlen : ((List.replicate 10000 [5] : List Sequence).length : Int) = numSeq := by
    rw [List.length_replicate]; decide
  have hcount : (List.replicate 10000 [5] : List Sequence).count [] = 0 := by
    rw [List.count_eq_zero]
    intro hm
    exact absurd (List.eq_of_mem_replicate hm) (by decide)
  ⟨⟨by decide, ret_true_iff_full.1 sampleHoles 2 0 9 (by decide)⟩,
    hlen, hcount, ret_true_iff_full.2 (List.replicate 10000 [5]) 9 0 hlen hcount⟩

/-- C4. In range, when at least one sequence with index in `start .. start + 10^(level+1) - 1`
is empty, the strict strategies other than out-param report failure and no value:
`multilevel_average_except` and `multilevel_average_expected` throw
`runtime_error("empty sequence")`, and `multilevel_average_expectedEC` returns a container
with `valid() == false` and `getErrorCode() == 1`. -/
theorem strict_fail_of_empty (sequences : List Sequence) (start : Int) (level : Nat)
    (hrange : InRange sequences start level)
    (hempty : ∃ seq ∈ subtree sequences start level, seq = []) :
    multilevel_average_except sequences start level = .raise (runtime_error "empty sequence") ∧
    multilevel_average_expected sequences start level
      = .raise (runtime_error "empty sequence") ∧
    ∃ c : ExpectedEC Int,
      multilevel_average_expectedEC sequences start level = .ret c ∧
      c.valid = false ∧ c.getErrorCode = 1 := by
  obtain ⟨seq, hseq, rfl⟩ := hempty
  exact ⟨(except_char hrange).1 hseq, (expected_char hrange).1 hseq,
    _, (expectedEC_char hrange).1 hseq, rfl, rfl⟩

set_option maxRecDepth 8000 in
theorem strict_fail_of_empty_witness :
    InRange sampleDeep 10 1 ∧ (∃ seq ∈ subtree sampleDeep 10 1, seq = []) ∧
    multilevel_average_except sampleDeep 10 1 = .raise (runtime_error "empty sequence") ∧
    multilevel_average_expected sampleDeep 10 1 = .raise (runtime_error "empty sequence") ∧
    ∃ c : ExpectedEC Int,
      multilevel_average_expectedEC sampleDeep 10 1 = .ret c ∧
      c.valid = false ∧ c.getErrorCode = 1 :=
  ⟨by decide, by decide, strict_fail_of_empty sampleDeep 10 1 (by decide) (by decide)⟩

/-! ## Tolerant aggregators -/

/-- C5. In range, whatever the number of empty sequences, the four tolerant aggregators
return the same integer: `multilevel_average_except_ign`, the value written by
`multilevel_average_ret_ign`, `multilevel_average_expected_ign` and
`multilevel_average_expectedEC_ign`. -/
theorem tolerant_aggregators_agree (sequences : List Sequence) (start : Int) (level : Nat)
    (res : Int) (hrange : InRange sequences start level) :
    ∃ v : Int,
      multilevel_average_except_ign sequences start level = .ret v ∧
      (∃ ok, multilevel_average_ret_ign sequences start level res = .ret (ok, v)) ∧
      multilevel_average_expected_ign sequences start level = .ret v ∧
      multilevel_average_expectedEC_ign sequences start level = .ret v :=
  ⟨treeValue sequences start level, except_ign_eq hrange, ⟨true, ret_ign_eq res hrange⟩,
    expected_ign_eq hrange, expectedEC_ign_eq hrange⟩

set_option maxRecDepth 8000 in
theorem tolerant_aggregators_agree_witness :
    InRange sampleDeep 10 1 ∧
    ∃ v : Int,
      multilevel_average_except_ign sampleDeep 10 1 = .ret v ∧
      (∃ ok, multilevel_average_ret_ign sampleDeep 10 1 3 = .ret (ok, v)) ∧
      multilevel_average_expected_ign sampleDeep 10 1 = .ret v ∧
      multilevel_average_expectedEC_ign sampleDeep 10 1 = .ret v :=
  ⟨by decide, tolerant_aggregators_agree sampleDeep 10 1 3 (by decide)⟩

/-- C6. Tolerant aggregators never signal failure: in range, `multilevel_average_ret_ign`
returns `true`, and `multilevel_average_except_ign`, `multilevel_average_expected_ign` and
`multilevel_average_expectedEC_ign` return an integer without throwing, however many leaf
sequences are empty. -/
theorem tolerant_never_fails (sequences : List Sequence) (start : Int) (level : Nat)
    (res : Int) (hrange : InRange sequences start level) :
    (∃ v, multilevel_average_ret_ign sequences start level res = .ret (true, v)) ∧
    (∃ v, multilevel_average_except_ign sequences start level = .ret v) ∧
    (∃ v, multilevel_average_expected_ign sequences start level = .ret v) ∧
    (∃ v, multilevel_average_expectedEC_ign sequences start level = .ret v) :=
  ⟨⟨_, ret_ign_eq res hrange⟩, ⟨_, except_ign_eq hrange⟩, ⟨_, expected_ign_eq hrange⟩,
    ⟨_, expectedEC_ign_eq hrange⟩⟩

theorem tolerant_never_fails_witness :
    InRange (List.replicate 10 ([] : Sequence)) 0 0 ∧
    (∃ v, multilevel_average_ret_ign (List.replicate 10 []) 0 0 8 = .ret (true, v)) ∧
    (∃ v, multilevel_average_except_ign (List.replicate 10 []) 0 0 = .ret v) ∧
    (∃ v, multilevel_average_expected_ign (List.replicate 10 []) 0 0 = .ret v) ∧
    (∃ v, multilevel_average_expectedEC_ign (List.replicate 10 []) 0 0 = .ret v) :=
  ⟨by decide, tolerant_never_fails (List.replicate 10 []) 0 0 8 (by decide)⟩

/-- C7. In range, the result of every tolerant aggregator call is the sum of the results of
the children that succeeded, taken in `int` arithmetic, divided by 10 with truncation; the
divisor is 10 however many of the ten children failed. When all ten children fail, as in a
level-0 call over ten empty sequences, the result is `0`. -/
theorem tolerant_is_tenth_of_succeeded (sequences : List Sequence) (start : Int) (level : Nat)
    (res : Int) (hrange : InRange sequences start level) :
    (multilevel_average_ret_ign sequences start level res
        = .ret (true, tenthOfSum
            (succeeded (ret_ign_child sequences level) flagged start (pow10 level))) ∧
      multilevel_average_except_ign sequences start level
        = .ret (tenthOfSum
            (succeeded (except_ign_child sequences level) some start (pow10 level))) ∧
      multilevel_average_expected_ign sequences start level
        = .ret (tenthOfSum
            (succeeded (expected_ign_child sequences level) Expected.held start (pow10 level))) ∧
      multilevel_average_expectedEC_ign sequences start level
        = .ret (tenthOfSum
            (succeeded (expectedEC_ign_child sequences level) ExpectedEC.held start
              (pow10 level)))) ∧
    (level = 0 → (∀ seq ∈ subtree sequences start level, seq = []) →
      succeeded (ret_ign_child sequences level) flagged start (pow10 level) = [] ∧
      multilevel_average_ret_ign sequences start level res = .ret (true, 0) ∧
      multilevel_average_except_ign sequences start level = .ret 0 ∧
      multilevel_average_expected_ign sequences start level = .ret 0 ∧
      multilevel_average_expectedEC_ign sequences start level = .ret 0) := by
  refine ⟨⟨?_, ?_, ?_, ?_⟩, ?_⟩
  · rw [ret_ign_succeeded hrange]; exact ret_ign_eq res hrange
  · rw [except_ign_succeeded hrange]; exact except_ign_eq hrange
  · rw [expected_ign_succeeded hrange]; exact expected_ign_eq hrange
  · rw [expectedEC_ign_succeeded hrange]; exact expectedEC_ign_eq hrange
  · rintro rfl hall
    have hv := treeValue_all_empty hrange hall
    refine ⟨?_, ?_, ?_, ?_, ?_⟩
    · rw [succeeded, List.filterMap_eq_nil_iff]
      intro i hi
      have hc := childIndex_eq hrange hi
      rw [pow_zero, mul_one] at hc
      have he : seqAt sequences (start + i) = [] :=
        hall _ (by rw [subtree_zero_eq hrange]; exact List.mem_map_of_mem _ hi)
      simp only [hc, ret_ign_child, index_leaf hrange hi, he]
      rfl
    · rw [← hv]; exact ret_ign_eq res hrange
    · rw [← hv]; exact except_ign_eq hrange
    · rw [← hv]; exact expected_ign_eq hrange
    · rw [← hv]; exact expectedEC_ign_eq hrange

theorem tolerant_is_tenth_of_succeeded_witness :
    InRange sampleHoles 2 0 ∧
    succeeded (ret_ign_child sampleHoles 0) flagged 2 (pow10 0) = [3, 1023, 0, 1, 9, 6, 50, 12] ∧
    tenthOfSum [3, 1023, 0, 1, 9, 6, 50, 12] = 110 ∧
    (multilevel_average_ret_ign sampleHoles 2 0 4
        = .ret (true, tenthOfSum
            (succeeded (ret_ign_child sampleHoles 0) flagged 2 (pow10 0))) ∧
      multilevel_average_except_ign sampleHoles 2 0
        = .ret (tenthOfSum
            (succeeded (except_ign_child sampleHoles 0) some 2 (pow10 0))) ∧
      multilevel_average_expected_ign sampleHoles 2 0
        = .ret (tenthOfSum
            (succeeded (expected_ign_child sampleHoles 0) Expected.held 2 (pow10 0))) ∧
      multilevel_average_expectedEC_ign sampleHoles 2 0
        = .ret (tenthOfSum
            (succeeded (expectedEC_ign_child sampleHoles 0) ExpectedEC.held 2 (pow10 0)))) :=
  ⟨by decide, by decide, by decide,
    (tolerant_is_tenth_of_succeeded sampleHoles 2 0 4 (by decide)).1⟩

/-! ## Leaf aggregators -/

/-- Without overflow the shared expression `sum / int(seq.size())` is the truncated mean. -/
theorem mean_eq {seq : Sequence} (hne : seq ≠ [])
    (hsum : -2147483648 ≤ seq.sum ∧ seq.sum < 2147483648)
    (hlen : (seq.length : Int) < 2147483648) :
    mean seq = Int.tdiv seq.sum seq.length := by
  have hpos : (0 : Int) < seq.length := by
    have := List.length_pos.mpr hne
    omega
  rw [mean, accumulate_eq, wrap32_of_range hsum.1 hsum.2,
    wrap32_of_range (by omega) hlen, div32]
  obtain ⟨h1, h2⟩ := tdiv_range hpos hsum.1 hsum.2
  exact wrap32_of_range h1 h2

/-- C8. For a non-empty sequence whose sum and length fit an `int`, all leaf aggregators yield
the sum of the elements divided by the length, truncated toward zero: `average_ignore`
returns it, `average_ret` returns `true` and writes it, `average_except` returns it without
throwing, `average_expected` and `average_expectedEC` return valid containers whose `get()`
is it, and `average_errcode` returns it and leaves `errorCode` untouched. -/
theorem leaf_aggregators_agree (seq : Sequence) (res errorCode : Int) (hne : seq ≠ [])
    (hsum : -2147483648 ≤ seq.sum ∧ seq.sum < 2147483648)
    (hlen : (seq.length : Int) < 2147483648) :
    average_ignore seq = Int.tdiv seq.sum seq.length ∧
    average_ret seq res = (true, Int.tdiv seq.sum seq.length) ∧
    average_except seq = .ret (Int.tdiv seq.sum seq.length) ∧
    (∃ c : Expected Int, average_expected seq = .ret c ∧ c.valid = true ∧
      c.get = .ret (Int.tdiv seq.sum seq.length)) ∧
    (average_expectedEC seq).valid = true ∧
    (average_expectedEC seq).get = .ret (Int.tdiv seq.sum seq.length) ∧
    average_errcode seq errorCode = (Int.tdiv seq.sum seq.length, errorCode) := by
  have hm := mean_eq hne hsum hlen
  have hi : average_ignore seq = Int.tdiv seq.sum seq.length := by
    rw [← hm]
    cases seq with
    | nil => exact absurd rfl hne
    | cons a l => rfl
  have he : average_errcode seq errorCode = (Int.tdiv seq.sum seq.length, errorCode) := by
    rw [← hm]
    cases seq with
    | nil => exact absurd rfl hne
    | cons a l => rfl
  rw [average_ret_nonempty hne, average_except_nonempty hne, average_expected_nonempty hne,
    average_expectedEC_nonempty hne, hi]
  exact ⟨rfl, rfl, rfl, ⟨_, rfl, rfl, rfl⟩, rfl, rfl, he⟩

theorem leaf_aggregators_agree_witness :
    (([-3, 0] : Sequence) ≠ [] ∧ Int.tdiv ([-3, 0] : Sequence).sum 2 = -1 ∧
      Int.fdiv ([-3, 0] : Sequence).sum 2 = -2) ∧
    average_ignore [-3, 0] = Int.tdiv ([-3, 0] : Sequence).sum ([-3, 0] : Sequence).length ∧
    average_ret [-3, 0] 6 = (true, Int.tdiv ([-3, 0] : Sequence).sum ([-3, 0] : Sequence).length) ∧
    average_except [-3, 0]
      = .ret (Int.tdiv ([-3, 0] : Sequence).sum ([-3, 0] : Sequence).length) ∧
    (∃ c : Expected Int, average_expected [-3, 0] = .ret c ∧ c.valid = true ∧
      c.get = .ret (Int.tdiv ([-3, 0] : Sequence).sum ([-3, 0] : Sequence).length)) ∧
    (average_expectedEC [-3, 0]).valid = true ∧
    (average_expectedEC [-3, 0]).get
      = .ret (Int.tdiv ([-3, 0] : Sequence).sum ([-3, 0] : Sequence).length) ∧
    average_errcode [-3, 0] 0
      = (Int.tdiv ([-3, 0] : Sequence).sum ([-3, 0] : Sequence).length, 0) :=
  ⟨⟨by decide, by decide, by decide⟩,
    leaf_aggregators_agree [-3, 0] 6 0 (by decide) (by decide) (by decide)⟩

/-- C9. On the empty sequence `average_ignore` returns `0`; `average_ret` returns `false` and
leaves the result slot at its previous value, whatever that value; `average_except` throws
`runtime_error("empty sequence")`; `average_expected` returns a container with
`valid() == false` holding `runtime_error("empty sequence")`, which `get()` rethrows;
`average_expectedEC` returns a container with `valid() == false` and `getErrorCode() == 1`. -/
theorem leaf_on_empty (res : Int) :
    average_ignore [] = 0 ∧
    average_ret [] res = (false, res) ∧
    average_except [] = .raise (runtime_error "empty sequence") ∧
    (∃ c : Expected Int, average_expected [] = .ret c ∧ c.valid = false ∧
      c = .error (runtime_error "empty sequence") ∧
      c.get = .raise (runtime_error "empty sequence")) ∧
    (average_expectedEC []).valid = false ∧ (average_expectedEC []).getErrorCode = 1 :=
  ⟨rfl, rfl, rfl, ⟨_, rfl, rfl, rfl, rfl⟩, rfl, rfl⟩

/-! ## The level-0 node -/

/-- When the leaf calls on `leaves` return exactly the values `vals`, no leaf is empty and
`vals` lists the means of the leaves. -/
theorem vals_of_map {β : Type} (leaves : List Sequence) (f : Sequence → β) (g : Int → β)
    (vals : List Int) (hg : Function.Injective g)
    (hf : ∀ seq, seq ≠ [] → f seq = g (average_ignore seq)) (hbad : ∀ v, f [] ≠ g v)
    (hmap : leaves.map f = vals.map g) :
    [] ∉ leaves ∧ vals = leaves.map average_ignore := by
  have hno : [] ∉ leaves := by
    intro hm
    have hin : f [] ∈ vals.map g := hmap ▸ List.mem_map_of_mem f hm
    obtain ⟨v, -, hv⟩ := List.mem_map.mp hin
    exact hbad v hv.symm
  refine ⟨hno, ?_⟩
  have hrw : leaves.map f = (leaves.map average_ignore).map g := by
    rw [List.map_map]
    apply List.map_congr_left
    intro seq hseq
    exact hf seq fun he => hno (he ▸ hseq)
  exact (List.map_injective_iff.mpr hg (hmap.symm.trans hrw))

theorem treeValue_zero_subtree {sequences : List Sequence} {start : Int}
    (h : InRange sequences start 0) :
    treeValue sequences start 0 = tenthOfSum ((subtree sequences start 0).map average_ignore) := by
  rw [treeValue_zero, subtree_zero_eq h, List.map_map]
  rfl

/-- C10, as the code has it. A recursive aggregator called with `level == 0` and an in-range
`start` applies the leaf aggregator to each of the ten sequences
`sequences[start] .. sequences[start + 9]` and returns the truncated tenth of the `int` sum of
the ten leaf results: `multilevel_average_ignore` always, and the `ret`, `except`, `expected`
and `expectedEC` variants whenever their ten leaf calls return values `vals`. -/
theorem level_zero_ten_leaves (sequences : List Sequence) (start : Int) (res : Int)
    (vals : List Int) (hrange : InRange sequences start 0) :
    (subtree sequences start 0).length = 10 ∧
    multilevel_average_ignore sequences start 0
      = .ret (tenthOfSum ((subtree sequences start 0).map average_ignore)) ∧
    ((subtree sequences start 0).map (fun seq => average_ret seq 0)
        = vals.map (fun v => (true, v)) →
      multilevel_average_ret sequences start 0 res = .ret (true, tenthOfSum vals)) ∧
    ((subtree sequences start 0).map average_except = vals.map Outcome.ret →
      multilevel_average_except sequences start 0 = .ret (tenthOfSum vals)) ∧
    ((subtree sequences start 0).map average_expected
        = vals.map (fun v => Outcome.ret (Expected.value v)) →
      multilevel_average_expected sequences start 0 = .ret (tenthOfSum vals)) ∧
    ((subtree sequences start 0).map average_expectedEC = vals.map ExpectedEC.value →
      multilevel_average_expectedEC sequences start 0 = .ret (.value (tenthOfSum vals))) := by
  have htv := treeValue_zero_subtree hrange
  refine ⟨?_, ?_, ?_, ?_, ?_, ?_⟩
  · rw [subtree_zero_eq hrange, List.length_map]; rfl
  · rw [← htv]; exact ignore_eq hrange
  · intro hmap
    obtain ⟨hno, hv⟩ := vals_of_map _ _ _ vals
      (fun a b hab => (Prod.mk.inj hab).2)
      (fun seq hne => average_ret_nonempty hne 0)
      (fun v hv => Bool.noConfusion (Prod.mk.inj hv).1) hmap
    rw [hv, ← htv]; exact (ret_char res hrange).2 hno
  · intro hmap
    obtain ⟨hno, hv⟩ := vals_of_map _ _ _ vals
      (fun a b hab => Outcome.ret.inj hab)
      (fun seq hne => average_except_nonempty hne)
      (fun v hv => Outcome.noConfusion hv) hmap
    rw [hv, ← htv]; exact (except_char hrange).2 hno
  · intro hmap
    obtain ⟨hno, hv⟩ := vals_of_map _ _ _ vals
      (fun a b hab => Expected.value.inj (Outcome.ret.inj hab))
      (fun seq hne => average_expected_nonempty hne)
      (fun v hv => Expected.noConfusion (Outcome.ret.inj hv)) hmap
    rw [hv, ← htv]; exact (expected_char hrange).2 hno
  · intro hmap
    obtain ⟨hno, hv⟩ := vals_of_map _ _ _ vals
      (fun a b hab => ExpectedEC.value.inj hab)
      (fun seq hne => average_expectedEC_nonempty hne)
      (fun v hv => ExpectedEC.noConfusion hv) hmap
    rw [hv, ← htv]; exact (expectedEC_char hrange).2 hno

theorem level_zero_ten_leaves_witness :
    InRange sampleFull 1 0 ∧
    subtree sampleFull 1 0
      = [[10], [2, 5], [3, 4, 8], [1023], [0], [1, 1, 1], [40, 2], [9], [6, 6], [100, 1]] ∧
    tenthOfSum [10, 3, 5, 1023, 0, 1, 21, 9, 6, 50] = 112 ∧
    multilevel_average_ignore sampleFull 1 0
      = .ret (tenthOfSum ((subtree sampleFull 1 0).map average_ignore)) ∧
    multilevel_average_ret sampleFull 1 0 (-1)
      = .ret (true, tenthOfSum [10, 3, 5, 1023, 0, 1, 21, 9, 6, 50]) ∧
    multilevel_average_except sampleFull 1 0
      = .ret (tenthOfSum [10, 3, 5, 1023, 0, 1, 21, 9, 6, 50]) ∧
    multilevel_average_expected sampleFull 1 0
      = .ret (tenthOfSum [10, 3, 5, 1023, 0, 1, 21, 9, 6, 50]) ∧
    multilevel_average_expectedEC sampleFull 1 0
      = .ret (.value (tenthOfSum [10, 3, 5, 1023, 0, 1, 21, 9, 6, 50])) :=
  have h := level_zero_ten_leaves sampleFull 1 (-1) [10, 3, 5, 1023, 0, 1, 21, 9, 6, 50]
    (by decide)
  ⟨by decide, by decide, by decide, h.2.1, h.2.2.1 (by decide), h.2.2.2.1 (by decide),
    h.2.2.2.2.1 (by decide), h.2.2.2.2.2 (by decide)⟩

/-- C10, as stated, fails: on `sampleFull` the level-0 call at `start = 0` is in range and
returns `108`, the tenth of the sum of ten leaf means, while the leaf aggregator on
`sequences[0]` alone gives `7`; the `ret`, `except`, `expected` and `expectedEC` variants
differ from their leaf aggregators in the same way. -/
theorem level_zero_not_single_leaf :
    InRange sampleFull 0 0 ∧
    index sampleFull 0 = .ret [7] ∧
    (multilevel_average_ignore sampleFull 0 0 = .ret 108 ∧ average_ignore [7] = 7) ∧
    (multilevel_average_ret sampleFull 0 0 0 = .ret (true, 108) ∧
      average_ret [7] 0 = (true, 7)) ∧
    (multilevel_average_except sampleFull 0 0 = .ret 108 ∧ average_except [7] = .ret 7) ∧
    (multilevel_average_expected sampleFull 0 0 = .ret 108 ∧
      average_expected [7] = .ret (.value 7)) ∧
    (multilevel_average_expectedEC sampleFull 0 0 = .ret (.value 108) ∧
      average_expectedEC [7] = .value 7) ∧
    multilevel_average_ignore sampleFull 0 0 ≠ (index sampleFull 0).map average_ignore := by
  decide

/-! ## The result containers -/

/-- C11. For `Expected<T>`: a container built from a value `v` has `valid() == true` and
`get()` returns `v` without throwing; a container built by `fromException(p)` has
`valid() == false` and `get()` returns no value but rethrows exactly the stored `p`; every
container is in exactly one of these two states and `valid()` tells which. -/
theorem expected_arms {α : Type} (v : α) (p : Exn) (c : Expected α) :
    ((Expected.value v).valid = true ∧ (Expected.value v).get = .ret v) ∧
    ((Expected.fromExceptionPtr p : Expected α).valid = false ∧
      (Expected.fromExceptionPtr p : Expected α).get = .raise p ∧
      ∀ w, (Expected.fromExceptionPtr p : Expected α).get ≠ .ret w) ∧
    ((c.valid = true ∧ ∃ w, c = .value w ∧ c.get = .ret w) ∨
      (c.valid = false ∧ ∃ q, c = Expected.fromExceptionPtr q ∧ c.get = .raise q)) ∧
    ¬ ((∃ w, c = .value w) ∧ ∃ q, c = Expected.fromExceptionPtr q) := by
  refine ⟨⟨rfl, rfl⟩, ⟨rfl, rfl, fun w h => Outcome.noConfusion h⟩, ?_, ?_⟩
  · cases c with
    | value w => exact Or.inl ⟨rfl, w, rfl, rfl⟩
    | error q => exact Or.inr ⟨rfl, q, rfl, rfl⟩
  · rintro ⟨⟨w, hw⟩, q, hq⟩
    rw [hw] at hq
    exact Expected.noConfusion hq

/-- C12. For `ExpectedEC<T>`: a container built from a value `v` has `valid() == true`,
`get() == v` and `getErrorCode() == 0`; for every 32-bit code `ec`, `fromErrorCode(ec)` has
`valid() == false`, `getErrorCode() == ec`, and `get()` throws
`runtime_error("unchecked error")` and returns no value. -/
theorem expectedEC_arms {α : Type} (v : α) (ec : Nat) (hec : ec < 4294967296) :
    ((ExpectedEC.value v).valid = true ∧ (ExpectedEC.value v).get = .ret v ∧
      (ExpectedEC.value v).getErrorCode = 0) ∧
    ((ExpectedEC.fromErrorCode ec : ExpectedEC α).valid = false ∧
      (ExpectedEC.fromErrorCode ec : ExpectedEC α).getErrorCode = ec ∧
      (ExpectedEC.fromErrorCode ec : ExpectedEC α).get
        = .raise (runtime_error "unchecked error") ∧
      ∀ w, (ExpectedEC.fromErrorCode ec : ExpectedEC α).get ≠ .ret w) := by
  refine ⟨⟨rfl, rfl, rfl⟩, rfl, ?_, rfl, fun w h => Outcome.noConfusion h⟩
  exact Nat.mod_eq_of_lt hec

theorem expectedEC_arms_witness :
    (4294967295 : Nat) < 4294967296 ∧
    (((ExpectedEC.value (-5 : Int)).valid = true ∧
      (ExpectedEC.value (-5 : Int)).get = .ret (-5) ∧
      (ExpectedEC.value (-5 : Int)).getErrorCode = 0) ∧
    ((ExpectedEC.fromErrorCode 4294967295 : ExpectedEC Int).valid = false ∧
      (ExpectedEC.fromErrorCode 4294967295 : ExpectedEC Int).getErrorCode = 4294967295 ∧
      (ExpectedEC.fromErrorCode 4294967295 : ExpectedEC Int).get
        = .raise (runtime_error "unchecked error") ∧
      ∀ w, (ExpectedEC.fromErrorCode 4294967295 : ExpectedEC Int).get ≠ .ret w)) :=
  ⟨by decide, expectedEC_arms (-5 : Int) 4294967295 (by decide)⟩

/-- C13. The call `Expected<T>::fromException<E>(ex)` throws `invalid_argument` and builds
no container if and only if the runtime type of `ex` differs from the static type `E`; when
the types match it returns a container with `valid() == false` whose `get()` rethrows an
exception equal to `ex`, of type `E`. -/
theorem fromException_guard {α : Type} (E : ExnType) (ex : Exn) :
    (((Expected.fromException E ex : Outcome (Expected α))
          = .raise (invalid_argument "invalid exception type; slicing may occur") ∧
        ∀ c, (Expected.fromException E ex : Outcome (Expected α)) ≠ .ret c) ↔
      ex.dynType ≠ E) ∧
    (ex.dynType = E →
      ∃ c : Expected α, Expected.fromException E ex = .ret c ∧ c.valid = false ∧
        c.get = .raise ex ∧ ex.dynType = E) := by
  by_cases h : ex.dynType = E
  · have hret : (Expected.fromException E ex : Outcome (Expected α))
        = .ret (.error ex) := by
      obtain ⟨t, w⟩ := ex
      cases h
      simp [Expected.fromException, Expected.fromExceptionPtr, make_exception_ptr]
    refine ⟨⟨fun hr => ?_, fun hne => absurd h hne⟩, fun _ => ⟨_, hret, rfl, rfl, h⟩⟩
    exact absurd hret (hr.2 _)
  · have hraise : (Expected.fromException E ex : Outcome (Expected α))
        = .raise (invalid_argument "invalid exception type; slicing may occur") := by
      simp [Expected.fromException, h]
    refine ⟨⟨fun _ => h, fun _ => ⟨hraise, fun c hc => ?_⟩⟩, fun he => absurd he h⟩
    rw [hraise] at hc
    exact Outcome.noConfusion hc

theorem fromException_guard_witness :
    ((⟨ExnType.range_error, "out of range"⟩ : Exn).dynType ≠ ExnType.runtime_error ∧
      (Expected.fromException ExnType.runtime_error ⟨ExnType.range_error, "out of range"⟩ :
          Outcome (Expected Int))
        = .raise (invalid_argument "invalid exception type; slicing may occur")) ∧
    ((runtime_error "empty sequence").dynType = ExnType.runtime_error ∧
      ∃ c : Expected Int,
        Expected.fromException ExnType.runtime_error (runtime_error "empty sequence") = .ret c ∧
        c.valid = false ∧ c.get = .raise (runtime_error "empty sequence") ∧
        (runtime_error "empty sequence").dynType = ExnType.runtime_error) :=
  ⟨⟨by decide,
      (((@fromException_guard Int ExnType.runtime_error
          ⟨ExnType.range_error, "out of range"⟩).1).2
        (by decide)).1⟩,
    rfl, (fromException_guard ExnType.runtime_error (runtime_error "empty sequence")).2 rfl⟩

/-- C14. Copy- and move-constructing either container preserves the live arm and its payload:
the new container has the same `valid()` as the old one, the same `get()` value when valid,
and when invalid the same stored failure, that is the same exception rethrown by `get()` for
`Expected` and the same `getErrorCode()` for `ExpectedEC`. -/
theorem copy_move_preserve {α : Type} (c : Expected α) (d : ExpectedEC α) :
    (c.copy.valid = c.valid ∧ c.copy.get = c.get ∧ c.copy = c) ∧
    (c.moveFrom.valid = c.valid ∧ c.moveFrom.get = c.get ∧ c.moveFrom = c) ∧
    (d.copy.valid = d.valid ∧ d.copy.get = d.get ∧ d.copy.getErrorCode = d.getErrorCode ∧
      d.copy = d) ∧
    (d.moveFrom.valid = d.valid ∧ d.moveFrom.get = d.get ∧
      d.moveFrom.getErrorCode = d.getErrorCode ∧ d.moveFrom = d) := by
  cases c <;> cases d <;> exact ⟨⟨rfl, rfl, rfl⟩, ⟨rfl, rfl, rfl⟩, ⟨rfl, rfl, rfl, rfl⟩,
    ⟨rfl, rfl, rfl, rfl⟩⟩

/-! ## Silent default against the tolerant aggregators -/

/-- C17. In range, whatever the number of empty sequences, `multilevel_average_ignore` returns
the value `multilevel_average_ret_ign` writes and the value `multilevel_average_except_ign`
returns: an empty leaf adds `0` to the sum in the first and nothing in the other two. -/
theorem ignore_eq_tolerant (sequences : List Sequence) (start : Int) (level : Nat)
    (res : Int) (hrange : InRange sequences start level) :
    (∃ v : Int,
      multilevel_average_ignore sequences start level = .ret v ∧
      multilevel_average_ret_ign sequences start level res = .ret (true, v) ∧
      multilevel_average_except_ign sequences start level = .ret v) ∧
    average_ignore [] = 0 ∧ (average_ret [] 0).1 = false ∧
    (∀ v, average_except [] ≠ .ret v) :=
  ⟨⟨treeValue sequences start level, ignore_eq hrange, ret_ign_eq res hrange,
      except_ign_eq hrange⟩, rfl, rfl, fun _ h => Outcome.noConfusion h⟩

set_option maxRecDepth 8000 in
theorem ignore_eq_tolerant_witness :
    InRange sampleDeep 20 1 ∧ ([] : Sequence) ∈ subtree sampleDeep 20 1 ∧
    (∃ v : Int,
      multilevel_average_ignore sampleDeep 20 1 = .ret v ∧
      multilevel_average_ret_ign sampleDeep 20 1 (-9) = .ret (true, v) ∧
      multilevel_average_except_ign sampleDeep 20 1 = .ret v) ∧
    average_ignore [] = 0 ∧ (average_ret [] 0).1 = false ∧
    (∀ v, average_except [] ≠ .ret v) :=
  ⟨by decide, by decide, ignore_eq_tolerant sampleDeep 20 1 (-9) (by decide)⟩

/-! ## The result slot of the strict out-parameter aggregator -/

/-- A loop ends either at its end or at a body that leaves the function. -/
theorem forLoop_result {ρ : Type} (body : Int → Int → Step ρ) (finish : Int → Outcome ρ) :
    ∀ (is : List Int) (sum : Int) (r : Outcome ρ), forLoop body finish is sum = r →
      (∃ s, r = finish s) ∨ ∃ i ∈ is, ∃ s, body i s = .exit r := by
  intro is
  induction is with
  | nil => intro sum r h; exact Or.inl ⟨sum, h.symm⟩
  | cons j rest ih =>
    intro sum r h
    rw [forLoop] at h
    cases hb : body j sum with
    | next s1 =>
      rw [hb] at h
      rcases ih s1 r h with hfin | ⟨i, hi, s, hs⟩
      · exact Or.inl hfin
      · exact Or.inr ⟨i, List.mem_cons_of_mem j hi, s, hs⟩
    | exit r1 =>
      rw [hb] at h
      have hr : r1 = r := h
      exact Or.inr ⟨j, List.mem_cons_self j rest, sum, by rw [hb, hr]⟩

/-- The only `false` a body of `multilevel_average_ret` leaves with carries the caller's `res`. -/
theorem ret_body_exit {child : Int → Int → Outcome (Bool × Int)} {res start stride i s r : Int}
    (h : ret_body child res start stride i s = .exit (.ret (false, r))) : r = res := by
  rw [ret_body] at h
  cases hc : child (childIndex start stride i) 0 with
  | ret a =>
    rw [hc] at h
    simp only [Step.after] at h
    split at h
    · injection h with h1
      injection h1 with h2
      exact (Prod.mk.inj h2).2.symm
    · cases h
  | raise e => rw [hc] at h; simp only [Step.after] at h; cases h
  | oob => rw [hc] at h; simp only [Step.after] at h; cases h

/-- C20. Failure of `multilevel_average_ret` leaves the caller's slot alone: whenever it
returns `false`, `res` holds the value it had before the call, whatever that value and however
many children were aggregated before the failing one; `res` changes only on a `true` return. -/
theorem ret_failure_atomic (sequences : List Sequence) (start : Int) (level : Nat)
    (res r : Int) (h : multilevel_average_ret sequences start level res = .ret (false, r)) :
    r = res := by
  cases level with
  | zero =>
    rw [multilevel_average_ret] at h
    rcases forLoop_result _ _ _ _ _ h with ⟨s, hs⟩ | ⟨i, -, s, hs⟩
    · injection hs with h1
      exact absurd (Prod.mk.inj h1).1 (by decide)
    · exact ret_body_exit hs
  | succ level =>
    rw [multilevel_average_ret] at h
    rcases forLoop_result _ _ _ _ _ h with ⟨s, hs⟩ | ⟨i, -, s, hs⟩
    · injection hs with h1
      exact absurd (Prod.mk.inj h1).1 (by decide)
    · exact ret_body_exit hs

set_option maxRecDepth 8000 in
theorem ret_failure_atomic_witness :
    multilevel_average_ret sampleDeep 10 1 (-77) = .ret (false, -77) ∧
    multilevel_average_ret sampleDeep 10 0 (-77) = .ret (true, 22) ∧
    (-77 : Int) = -77 :=
  ⟨by decide, by decide,
    ret_failure_atomic sampleDeep 10 1 (-77) (-77) (by decide)⟩

/-! ## The reads of a call -/

/-- The instrumented loop computes what the loop of `multilevel_average_ignore` computes. -/
theorem readsLoop_fst (childT : Int → Outcome Int × List Int) (child : Int → Outcome Int)
    (start stride : Int) (hc : ∀ idx, (childT idx).1 = child idx) :
    ∀ (is : List Int) (sum : Int) (reads : List Int),
      (readsLoop childT start stride is sum reads).1
        = forLoop (ignore_body child start stride) (fun sum => .ret (div32 sum 10)) is sum := by
  intro is
  induction is with
  | nil => intro sum reads; rfl
  | cons j rest ih =>
    intro sum reads
    have h := hc (childIndex start stride j)
    rw [readsLoop, forLoop, ignore_body, ← h]
    rcases hct : childT (childIndex start stride j) with ⟨o, r⟩
    cases o with
    | ret val => exact ih _ _
    | raise e => rfl
    | oob => rfl

theorem reads_fst (sequences : List Sequence) (level : Nat) :
    ∀ start : Int, (multilevel_average_ignore_reads sequences start level).1
      = multilevel_average_ignore sequences start level := by
  induction level with
  | zero =>
    intro start
    rw [multilevel_average_ignore_reads, multilevel_average_ignore]
    exact readsLoop_fst _ _ _ _ (fun _ => rfl) _ _ _
  | succ level ih =>
    intro start
    rw [multilevel_average_ignore_reads, multilevel_average_ignore]
    exact readsLoop_fst _ _ _ _ (fun idx => ih idx) _ _ _

/-- When every child returns, the loop has read what its children read, child after child. -/
theorem readsLoop_snd (childT : Int → Outcome Int × List Int) (start stride : Int)
    (val : Int → Int) (tr : Int → List Int) :
    ∀ (is : List Int) (sum : Int) (reads : List Int),
      (∀ i ∈ is, childT (childIndex start stride i) = (.ret (val i), tr i)) →
      (readsLoop childT start stride is sum reads).2 = reads ++ (is.map tr).flatten := by
  intro is
  induction is with
  | nil => intro sum reads _; simp [readsLoop]
  | cons j rest ih =>
    intro sum reads h
    rw [readsLoop, h j (List.mem_cons_self j rest)]
    simp only
    rw [ih _ _ fun i hi => h i (List.mem_cons_of_mem j hi), List.map_cons, List.flatten_cons,
      List.append_assoc]

/-- The indices `s .. s + n * m - 1` are `n` consecutive blocks of `m` indices. -/
theorem range_blocks (s : Int) (m : Nat) :
    ∀ n : Nat, (List.range (n * m)).map (fun j : Nat => s + (j : Int))
      = ((List.range n).map fun i : Nat =>
          (List.range m).map fun j : Nat => s + (i : Int) * (m : Int) + (j : Int)).flatten := by
  intro n
  induction n with
  | zero => simp
  | succ n ih =>
    rw [Nat.succ_mul, List.range_add, List.map_append, ih, List.range_succ, List.map_append,
      List.flatten_append, List.map_singleton, List.flatten_singleton, List.map_map]
    congr 1
    apply List.map_congr_left
    intro j _
    simp only [Function.comp_apply]
    push_cast
    ring

theorem loopIndices_eq : loopIndices = (List.range 10).map fun i : Nat => (i : Int) := by
  decide

/-- In range, the reads of a call are `start, start + 1, .., start + 10^(level+1) - 1`. -/
theorem reads_snd {sequences : List Sequence} {level : Nat} :
    ∀ {start : Int}, InRange sequences start level →
      (multilevel_average_ignore_reads sequences start level).2
        = (List.range (10 ^ (level + 1))).map fun j : Nat => start + (j : Int) := by
  induction level with
  | zero =>
    intro start h
    rw [multilevel_average_ignore_reads,
      readsLoop_snd _ _ _ (fun i => average_ignore (seqAt sequences (start + i)))
        (fun i => [start + i]) loopIndices 0 [] (by
          intro i hi
          have hc := childIndex_eq h hi
          rw [pow_zero, mul_one] at hc
          rw [hc, index_leaf h hi]
          rfl)]
    simp [loopIndices, List.range_succ]
  | succ level ih =>
    intro start h
    rw [multilevel_average_ignore_reads,
      readsLoop_snd _ _ _ (fun i => treeValue sequences (start + i * 10 ^ (level + 1)) level)
        (fun i => (List.range (10 ^ (level + 1))).map
          fun j : Nat => start + i * 10 ^ (level + 1) + (j : Int)) loopIndices 0 [] (by
          intro i hi
          have hfst := reads_fst sequences level (start + i * 10 ^ (level + 1))
          rw [ignore_eq (h.child hi)] at hfst
          rw [childIndex_eq h hi]
          exact Prod.ext hfst (ih (h.child hi)))]
    have hpow : 10 ^ (level + 1 + 1) = 10 * 10 ^ (level + 1) := by ring
    rw [List.nil_append, hpow, range_blocks start (10 ^ (level + 1)) 10, loopIndices_eq,
      List.map_map]
    congr 1
    apply List.map_congr_left
    intro i _
    apply List.map_congr_left
    intro j _
    simp only [Function.comp_apply]
    push_cast
    ring

/-- C18. In range, the call `(start, level)` of the non-aborting `multilevel_average_ignore`
reads exactly the leaf indices `start, start + 1, .., start + 10^(level+1) - 1`, each once and
in ascending order. Hence on a dataset of `numSeq = 10^4` sequences the top-level call
`(0, numLevels - 1)` reads every sequence exactly once, returns, and reads no index outside
the dataset. -/
theorem reads_exactly_subtree :
    (∀ (sequences : List Sequence) (start : Int) (level : Nat),
      InRange sequences start level →
        (multilevel_average_ignore_reads sequences start level).1
          = multilevel_average_ignore sequences start level ∧
        (multilevel_average_ignore_reads sequences start level).2
          = (List.range (10 ^ (level + 1))).map (fun j : Nat => start + (j : Int)) ∧
        (multilevel_average_ignore_reads sequences start level).2.Pairwise (· < ·) ∧
        (multilevel_average_ignore_reads sequences start level).2.Nodup ∧
        ∀ k : Int, k ∈ (multilevel_average_ignore_reads sequences start level).2 ↔
          start ≤ k ∧ k < start + 10 ^ (level + 1)) ∧
    (∀ sequences : List Sequence, (sequences.length : Int) = numSeq →
        (multilevel_average_ignore_reads sequences 0 (numLevels - 1)).2
          = (List.range sequences.length).map (fun j : Nat => (j : Int)) ∧
        (∃ v, multilevel_average_ignore sequences 0 (numLevels - 1) = .ret v) ∧
        ∀ k ∈ (multilevel_average_ignore_reads sequences 0 (numLevels - 1)).2,
          ∃ seq, index sequences k = .ret seq) := by
  have hpw : ∀ (start : Int) (n : Nat),
      ((List.range n).map fun j : Nat => start + (j : Int)).Pairwise (· < ·) := by
    intro start n
    rw [List.pairwise_map]
    exact (List.pairwise_lt_range n).imp fun hab => by omega
  have hmem : ∀ (start : Int) (n : Nat) (k : Int),
      k ∈ ((List.range n).map fun j : Nat => start + (j : Int)) ↔
        start ≤ k ∧ k < start + (n : Int) := by
    intro start n k
    simp only [List.mem_map, List.mem_range]
    constructor
    · rintro ⟨j, hj, rfl⟩; omega
    · rintro ⟨h1, h2⟩; exact ⟨(k - start).toNat, by omega, by omega⟩
  refine ⟨fun sequences start level hrange => ?_, fun sequences hlen => ?_⟩
  · have hs := reads_snd hrange
    refine ⟨reads_fst _ _ _, hs, ?_, ?_, fun k => ?_⟩
    · rw [hs]; exact hpw _ _
    · rw [hs]; exact (hpw _ _).imp fun hab => Int.ne_of_lt hab
    · rw [hs, hmem]; push_cast; rfl
  · obtain ⟨-, hrange⟩ := subtree_top hlen
    have hs := reads_snd hrange
    have hn : numSeq = 10000 := by decide
    rw [hn] at hlen
    have hlenN : sequences.length = 10 ^ (numLevels - 1 + 1) := by
      have : (10 : Nat) ^ (numLevels - 1 + 1) = 10000 := by decide
      omega
    refine ⟨?_, ⟨_, ignore_eq hrange⟩, fun k hk => ?_⟩
    · rw [hs, hlenN]
      apply List.map_congr_left
      intro j _
      exact Int.zero_add _
    · rw [hs, hmem, ← hlenN] at hk
      have hlt : k.toNat < sequences.length := by omega
      exact ⟨sequences[k.toNat], by
        simp only [index, show 0 ≤ k by omega, if_true, List.getElem?_eq_getElem hlt]⟩

set_option maxRecDepth 8000 in
theorem reads_exactly_subtree_witness :
    (InRange sampleDeep 10 1 ∧
      (multilevel_average_ignore_reads sampleDeep 10 1).2
        = (List.range 100).map (fun j : Nat => 10 + (j : Int)) ∧
      (multilevel_average_ignore_reads sampleHoles 1 0).2 = [1, 2, 3, 4, 5, 6, 7, 8, 9, 10] ∧
      (multilevel_average_ignore_reads sampleDeep 10 1).2.Nodup) ∧
    (((List.replicate 10000 [5] : List Sequence).length : Int) = numSeq ∧
      (multilevel_average_ignore_reads (List.replicate 10000 [5]) 0 (numLevels - 1)).2
        = (List.range (List.replicate 10000 [5] : List Sequence).length).map
            (fun j : Nat => (j : Int)) ∧
      ∃ v, multilevel_average_ignore (List.replicate 10000 [5]) 0 (numLevels - 1) = .ret v) :=
  have hlen : ((List.replicate 10000 [5] : List Sequence).length : Int) = numSeq := by
    rw [List.length_replicate]; decide
  have h1 := reads_exactly_subtree.1 sampleDeep 10 1 (by decide)
  have h2 := reads_exactly_subtree.2 (List.replicate 10000 [5]) hlen
  ⟨⟨by decide, h1.2.1, by decide, h1.2.2.2.1⟩, hlen, h2.1, h2.2.1⟩

/-! ## Bounds on generated data -/

/-- A list of values in `[0, B]` has all its sums between `0` and `length * B`. -/
theorem sum_bounds (B : Int) :
    ∀ l : List Int, (∀ x ∈ l, 0 ≤ x ∧ x ≤ B) → 0 ≤ l.sum ∧ l.sum ≤ (l.length : Int) * B := by
  intro l
  induction l with
  | nil => intro _; simp
  | cons a l ih =>
    intro h
    obtain ⟨h1, h2⟩ := ih fun x hx => h x (List.mem_cons_of_mem a hx)
    obtain ⟨ha1, ha2⟩ := h a (List.mem_cons_self a l)
    rw [List.sum_cons, List.length_cons]
    push_cast
    constructor
    · omega
    · linarith

theorem take_sum_bounds (B : Int) (hB : 0 ≤ B) (l : List Int) (h : ∀ x ∈ l, 0 ≤ x ∧ x ≤ B)
    (k : Nat) : 0 ≤ (l.take k).sum ∧ (l.take k).sum ≤ (l.length : Int) * B := by
  obtain ⟨h1, h2⟩ := sum_bounds B (l.take k) fun x hx => h x (List.mem_of_mem_take hx)
  refine ⟨h1, h2.trans ?_⟩
  have hlen : ((l.take k).length : Int) ≤ (l.length : Int) := by
    rw [List.length_take]; omega
  exact Int.mul_le_mul_of_nonneg_right hlen hB

theorem GoodSeq.take {seq : Sequence} (h : GoodSeq seq) (k : Nat) : GoodSeq (seq.take k) :=
  ⟨by rw [List.length_take]; have := h.1; omega, fun x hx => h.2 x (List.mem_of_mem_take hx)⟩

/-- On a generated sequence the running sum never leaves `[0, 20460]`. -/
theorem GoodSeq.sum_range {seq : Sequence} (h : GoodSeq seq) :
    0 ≤ seq.sum ∧ seq.sum ≤ 20460 ∧ seq.sum ≤ (seq.length : Int) * 1023 ∧
      accumulate seq = seq.sum := by
  obtain ⟨h1, h2⟩ := sum_bounds 1023 seq fun x hx => ⟨(h.2 x hx).1, by have := (h.2 x hx).2; omega⟩
  have hlen : (seq.length : Int) ≤ 20 := by have := h.1; omega
  have h3 : seq.sum ≤ 20460 := by omega
  exact ⟨h1, h3, h2, by rw [accumulate_eq]; exact wrap32_of_range (by omega) (by omega)⟩

/-- On a generated sequence the leaf average is the plain quotient and lies in `[0, 1023]`. -/
theorem GoodSeq.average_range {seq : Sequence} (h : GoodSeq seq) :
    (seq ≠ [] → mean seq = seq.sum / (seq.length : Int)) ∧
      0 ≤ average_ignore seq ∧ average_ignore seq ≤ 1023 := by
  obtain ⟨h1, h2, h3, -⟩ := h.sum_range
  cases seq with
  | nil => exact ⟨fun hne => absurd rfl hne, by decide, by decide⟩
  | cons a l =>
    have hne : a :: l ≠ [] := List.cons_ne_nil a l
    have hlen20 : ((a :: l).length : Int) ≤ 20 := by have := h.1; omega
    have hpos : (0 : Int) < ((a :: l).length : Int) := by
      have := List.length_pos.mpr hne
      omega
    have hm : mean (a :: l) = (a :: l).sum / ((a :: l).length : Int) := by
      rw [mean_eq hne ⟨by omega, by omega⟩ (by omega), Int.tdiv_eq_ediv h1 hpos.le]
    have hi : average_ignore (a :: l) = mean (a :: l) := rfl
    rw [hi, hm]
    refine ⟨fun _ => rfl, Int.ediv_nonneg h1 hpos.le, ?_⟩
    have hlt : (a :: l).sum / ((a :: l).length : Int) < 1024 := by
      apply Int.ediv_lt_of_lt_mul hpos
      have : (1023 : Int) * ((a :: l).length : Int) < 1024 * ((a :: l).length : Int) := by
        omega
      linarith
    omega

/-- The truncated tenth of ten values in `[0, 1023]` is their plain sum over 10, in `[0, 1023]`. -/
theorem tenthOfSum_range (vals : List Int) (hlen : vals.length = 10)
    (h : ∀ x ∈ vals, 0 ≤ x ∧ x ≤ 1023) :
    tenthOfSum vals = vals.sum / 10 ∧ 0 ≤ vals.sum / 10 ∧ vals.sum / 10 ≤ 1023 := by
  obtain ⟨h1, h2⟩ := sum_bounds 1023 vals h
  rw [hlen] at h2
  have h3 : vals.sum ≤ 10230 := by omega
  rw [tenthOfSum, wrap32_of_range (by omega) (by omega),
    Int.tdiv_eq_ediv h1 (by norm_num)]
  omega

theorem seqAt_good {sequences : List Sequence} (h : ∀ seq ∈ sequences, GoodSeq seq) (k : Int) :
    GoodSeq (seqAt sequences k) := by
  unfold seqAt
  cases hk : sequences[k.toNat]? with
  | none => exact ⟨by simp, fun x hx => absurd hx (List.not_mem_nil x)⟩
  | some seq => exact h seq (List.mem_iff_getElem?.mpr ⟨_, hk⟩)

/-- On generated data every in-range subtree has its value in `[0, 1023]`. -/
theorem treeValue_range {sequences : List Sequence} (h : ∀ seq ∈ sequences, GoodSeq seq)
    (level : Nat) : ∀ start : Int,
      0 ≤ treeValue sequences start level ∧ treeValue sequences start level ≤ 1023 := by
  induction level with
  | zero =>
    intro start
    rw [treeValue_zero]
    have := tenthOfSum_range
      (loopIndices.map fun i => average_ignore (seqAt sequences (start + i)))
      (by rw [List.length_map]; rfl) (by
        intro x hx
        obtain ⟨i, -, rfl⟩ := List.mem_map.mp hx
        exact (seqAt_good h _).average_range.2)
    omega
  | succ level ih =>
    intro start
    rw [treeValue_succ]
    have := tenthOfSum_range
      (loopIndices.map fun i => treeValue sequences (start + i * 10 ^ (level + 1)) level)
      (by rw [List.length_map]; rfl) (by
        intro x hx
        obtain ⟨i, -, rfl⟩ := List.mem_map.mp hx
        exact ih _)
    omega

theorem filterMap_eq_map (f : Int → Option Int) (val : Int → Int) :
    ∀ is : List Int, (∀ i ∈ is, f i = some (val i)) → is.filterMap f = is.map val := by
  intro is
  induction is with
  | nil => intro _; rfl
  | cons j rest ih =>
    intro h
    rw [List.filterMap_cons_some (h j (List.mem_cons_self j rest)), List.map_cons,
      ih fun i hi => h i (List.mem_cons_of_mem j hi)]

/-- In range, the child values of a call of `multilevel_average_ignore`: leaf averages at level 0,
values of the child subtrees above. -/
theorem ignore_children {sequences : List Sequence} {start : Int} {level : Nat}
    (h : InRange sequences start level) :
    succeeded (ignore_child sequences level) some start (pow10 level)
      = match level with
        | 0 => loopIndices.map fun i => average_ignore (seqAt sequences (start + i))
        | n + 1 => loopIndices.map fun i => treeValue sequences (start + i * 10 ^ (n + 1)) n := by
  cases level with
  | zero =>
    rw [succeeded]
    apply filterMap_eq_map
    intro i hi
    have hc := childIndex_eq h hi
    rw [pow_zero, mul_one] at hc
    simp only [hc, ignore_child, index_leaf h hi]
    rfl
  | succ level =>
    rw [succeeded]
    apply filterMap_eq_map
    intro i hi
    simp only [childIndex_eq h hi, ignore_child, ignore_eq (h.child hi)]

/-- C19. If every sequence of the dataset has at most 20 elements, all in `[0, 1024)`, no `int`
overflows. Every running leaf sum is the plain sum and at most 20460, every leaf average is
the plain quotient and lies in `[0, 1023]`; at every in-range node the ten child values lie in
`[0, 1023]`, their running sums never exceed 10230, the node returns their plain sum over 10,
and every value returned by any variant at any level lies in `[0, 1023]`. -/
theorem no_overflow_on_generated_data :
    (∀ (seq : Sequence) (res errorCode : Int), GoodSeq seq →
      (∀ k, accumulate (seq.take k) = (seq.take k).sum ∧ 0 ≤ (seq.take k).sum ∧
        (seq.take k).sum ≤ 20460) ∧
      (accumulate seq = seq.sum ∧ seq.sum ≤ 20460) ∧
      (seq ≠ [] → mean seq = seq.sum / (seq.length : Int)) ∧
      ∀ w, (average_ignore seq = w ∨ average_ret seq res = (true, w) ∨
          average_except seq = .ret w ∨ average_expected seq = .ret (.value w) ∨
          average_expectedEC seq = .value w ∨ (average_errcode seq errorCode).1 = w) →
        0 ≤ w ∧ w ≤ 1023) ∧
    (∀ (sequences : List Sequence) (start : Int) (level : Nat) (res : Int),
      (∀ seq ∈ sequences, GoodSeq seq) → InRange sequences start level →
      ((succeeded (ignore_child sequences level) some start (pow10 level)).length = 10 ∧
        (∀ x ∈ succeeded (ignore_child sequences level) some start (pow10 level),
          0 ≤ x ∧ x ≤ 1023) ∧
        (∀ k, 0 ≤ ((succeeded (ignore_child sequences level) some start (pow10 level)).take k).sum ∧
          ((succeeded (ignore_child sequences level) some start (pow10 level)).take k).sum
            ≤ 10230) ∧
        multilevel_average_ignore sequences start level
          = .ret ((succeeded (ignore_child sequences level) some start (pow10 level)).sum / 10)) ∧
      ∀ w, (multilevel_average_ignore sequences start level = .ret w ∨
          multilevel_average_ret sequences start level res = .ret (true, w) ∨
          multilevel_average_ret_ign sequences start level res = .ret (true, w) ∨
          multilevel_average_except sequences start level = .ret w ∨
          multilevel_average_except_ign sequences start level = .ret w ∨
          multilevel_average_expected sequences start level = .ret w ∨
          multilevel_average_expected_ign sequences start level = .ret w ∨
          multilevel_average_expectedEC sequences start level = .ret (.value w) ∨
          multilevel_average_expectedEC_ign sequences start level = .ret w) →
        0 ≤ w ∧ w ≤ 1023) := by
  refine ⟨fun seq res errorCode hg => ⟨fun k => ?_, ?_, hg.average_range.1, fun w hw => ?_⟩,
    fun sequences start level res hgood hrange => ⟨?_, fun w hw => ?_⟩⟩
  · obtain ⟨h1, h2, -, h4⟩ := (hg.take k).sum_range
    exact ⟨h4, h1, h2⟩
  · obtain ⟨-, h2, -, h4⟩ := hg.sum_range
    exact ⟨h4, h2⟩
  · have hb := hg.average_range.2
    cases seq with
    | nil =>
      rcases hw with h | h | h | h | h | h
      · rw [← h]; exact hb
      · exact absurd (Prod.mk.inj h).1 (by decide)
      · exact Outcome.noConfusion h
      · exact Expected.noConfusion (Outcome.ret.inj h)
      · exact ExpectedEC.noConfusion h
      · rw [← h]; exact hb
    | cons a l =>
      have hne : a :: l ≠ [] := List.cons_ne_nil a l
      rw [average_ret_nonempty hne, average_except_nonempty hne,
        average_expected_nonempty hne, average_expectedEC_nonempty hne] at hw
      have he : (average_errcode (a :: l) errorCode).1 = average_ignore (a :: l) := rfl
      rw [he] at hw
      have hwv : average_ignore (a :: l) = w := by
        rcases hw with h | h | h | h | h | h
        · exact h
        · exact (Prod.mk.inj h).2
        · exact Outcome.ret.inj h
        · exact Expected.value.inj (Outcome.ret.inj h)
        · exact ExpectedEC.value.inj h
        · exact h
      rw [← hwv]; exact hb
  · have hvals : ∀ x ∈ succeeded (ignore_child sequences level) some start (pow10 level),
        0 ≤ x ∧ x ≤ 1023 := by
      rw [ignore_children hrange]
      intro x hx
      cases level with
      | zero =>
        obtain ⟨i, -, rfl⟩ := List.mem_map.mp hx
        exact (seqAt_good hgood _).average_range.2
      | succ level =>
        obtain ⟨i, -, rfl⟩ := List.mem_map.mp hx
        exact treeValue_range hgood _ _
    have hlen : (succeeded (ignore_child sequences level) some start (pow10 level)).length
        = 10 := by
      rw [ignore_children hrange]
      cases level <;> exact (List.length_map _ _).trans rfl
    have htv : treeValue sequences start level
        = tenthOfSum (succeeded (ignore_child sequences level) some start (pow10 level)) := by
      rw [ignore_children hrange]
      cases level with
      | zero => exact treeValue_zero _ _
      | succ level => exact treeValue_succ _ _ _
    refine ⟨hlen, hvals, fun k => ?_, ?_⟩
    · have := take_sum_bounds 1023 (by norm_num) _ hvals k
      rw [hlen] at this
      exact ⟨this.1, by omega⟩
    · rw [ignore_eq hrange, htv, (tenthOfSum_range _ hlen hvals).1]
  · have hb := treeValue_range hgood level start
    have hwv : treeValue sequences start level = w := by
      by_cases hm : [] ∈ subtree sequences start level
      · rw [ignore_eq hrange, (ret_char res hrange).1 hm, ret_ign_eq res hrange,
          (except_char hrange).1 hm, except_ign_eq hrange, (expected_char hrange).1 hm,
          expected_ign_eq hrange, (expectedEC_char hrange).1 hm, expectedEC_ign_eq hrange] at hw
        rcases hw with h | h | h | h | h | h | h | h | h
        · exact Outcome.ret.inj h
        · exact absurd (Prod.mk.inj (Outcome.ret.inj h)).1 (by decide)
        · exact (Prod.mk.inj (Outcome.ret.inj h)).2
        · exact Outcome.noConfusion h
        · exact Outcome.ret.inj h
        · exact Outcome.noConfusion h
        · exact Outcome.ret.inj h
        · exact ExpectedEC.noConfusion (Outcome.ret.inj h)
        · exact Outcome.ret.inj h
      · rw [ignore_eq hrange, (ret_char res hrange).2 hm, ret_ign_eq res hrange,
          (except_char hrange).2 hm, except_ign_eq hrange, (expected_char hrange).2 hm,
          expected_ign_eq hrange, (expectedEC_char hrange).2 hm, expectedEC_ign_eq hrange] at hw
        rcases hw with h | h | h | h | h | h | h | h | h
        · exact Outcome.ret.inj h
        · exact (Prod.mk.inj (Outcome.ret.inj h)).2
        · exact (Prod.mk.inj (Outcome.ret.inj h)).2
        · exact Outcome.ret.inj h
        · exact Outcome.ret.inj h
        · exact Outcome.ret.inj h
        · exact Outcome.ret.inj h
        · exact ExpectedEC.value.inj (Outcome.ret.inj h)
        · exact Outcome.ret.inj h
    rw [← hwv]; exact hb

set_option maxRecDepth 8000 in
theorem no_overflow_on_generated_data_witness :
    (GoodSeq (List.replicate 20 1023) ∧
      accumulate (List.replicate 20 1023) = 20460 ∧
      (accumulate (List.replicate 20 1023) = (List.replicate 20 1023 : Sequence).sum ∧
        (List.replicate 20 1023 : Sequence).sum ≤ 20460) ∧
      average_ignore (List.replicate 20 1023) = 1023) ∧
    ((∀ seq ∈ sampleDeep, GoodSeq seq) ∧ InRange sampleDeep 10 1 ∧
      (succeeded (ignore_child sampleDeep 1) some 10 (pow10 1)).length = 10 ∧
      multilevel_average_ignore sampleDeep 10 1
        = .ret ((succeeded (ignore_child sampleDeep 1) some 10 (pow10 1)).sum / 10) ∧
      multilevel_average_ignore sampleDeep 10 1 = .ret 88 ∧ (0 : Int) ≤ 88 ∧ (88 : Int) ≤ 1023) :=
  have h1 := no_overflow_on_generated_data.1 (List.replicate 20 1023) 0 0 (by decide)
  have h2 := no_overflow_on_generated_data.2 sampleDeep 10 1 0 (by decide) (by decide)
  ⟨⟨by decide, by decide, h1.2.1, by decide⟩,
    by decide, by decide, h2.1.1, h2.1.2.2.2, by decide, h2.2 88 (Or.inl (by decide))⟩

/-! ## The sequence generator -/

theorem numSeq_toNat : numSeq.toNat = 10000 := by decide

theorem fillSequence_filled (rand : Nat → Nat) (pos : Nat) :
    FilledSeq (fillSequence rand pos).1 := by
  refine ⟨?_, ?_, ?_⟩
  · simp only [fillSequence, List.length_map, List.length_range]; omega
  · simp only [fillSequence, List.length_map, List.length_range]; omega
  · intro x hx
    simp only [fillSequence, List.mem_map, List.mem_range] at hx
    obtain ⟨j, -, rfl⟩ := hx
    have := Nat.mod_lt (rand (pos + 1 + j)) (by norm_num : 0 < 1024)
    omega

/-- The first loop leaves `n` more sequences, each as `fillSequence` fills it. -/
theorem fillSequences_spec (rand : Nat → Nat) :
    ∀ (n pos : Nat) (filled : List Sequence), (∀ seq ∈ filled, FilledSeq seq) →
      (fillSequences rand n pos filled).1.length = filled.length + n ∧
      ∀ seq ∈ (fillSequences rand n pos filled).1, FilledSeq seq := by
  intro n
  induction n with
  | zero =>
    intro pos filled h
    simp only [fillSequences, List.length_reverse, Nat.add_zero, List.mem_reverse, true_and]
    exact h
  | succ n ih =>
    intro pos filled h
    rw [fillSequences]
    obtain ⟨h1, h2⟩ := ih (fillSequence rand pos).2 ((fillSequence rand pos).1 :: filled) (by
      intro seq hseq
      rcases List.mem_cons.mp hseq with rfl | hm
      · exact fillSequence_filled rand pos
      · exact h seq hm)
    refine ⟨?_, h2⟩
    rw [h1, List.length_cons]; omega

theorem FilledSeq.ne_nil {seq : Sequence} (h : FilledSeq seq) : seq ≠ [] := by
  intro he
  have := h.1
  rw [he] at this
  simp at this

/-- Before the clearing loop no sequence is empty and nothing is cleared. -/
theorem clearInv_init (rand : Nat → Nat) :
    ClearInv (fillSequences rand numSeq.toNat 0 []).1 [] := by
  obtain ⟨h1, h2⟩ := fillSequences_spec rand numSeq.toNat 0 []
    (fun seq hseq => absurd hseq (List.not_mem_nil seq))
  have hno : ([] : Sequence) ∉ (fillSequences rand numSeq.toNat 0 []).1 :=
    fun hm => (h2 [] hm).ne_nil rfl
  refine ⟨by rw [h1]; simp, List.nodup_nil, fun i => ?_, ?_, fun seq hseq _ => h2 seq hseq⟩
  · constructor
    · intro hi; exact absurd hi (List.not_mem_nil i)
    · intro hi; exact absurd (List.mem_iff_getElem?.mpr ⟨i, hi⟩) hno
  · rw [List.length_nil, List.count_eq_zero]; exact hno

/-- The retry loop returns an index of the dataset at which the sequence is not empty. -/
theorem pickNonEmpty_spec (rand : Nat → Nat) (res : List Sequence) :
    ∀ (fuel pos seqIdx pos1 : Nat), pickNonEmpty rand res fuel pos = some (seqIdx, pos1) →
      seqIdx < numSeq.toNat ∧ (res[seqIdx]?).getD [] ≠ [] := by
  intro fuel
  induction fuel with
  | zero => intro pos seqIdx pos1 h; cases h
  | succ fuel ih =>
    intro pos seqIdx pos1 h
    rw [pickNonEmpty] at h
    split at h
    · exact ih _ _ _ h
    · rename_i hne
      injection h with h1
      obtain ⟨h2, -⟩ := Prod.mk.inj h1
      subst h2
      refine ⟨Nat.mod_lt _ (by rw [numSeq_toNat]; norm_num), fun he => hne ?_⟩
      rw [he]; rfl

/-- Clearing a sequence that is not empty keeps the invariant of the clearing loop. -/
theorem ClearInv.step {res : List Sequence} {cleared : List Nat} (h : ClearInv res cleared)
    {seqIdx : Nat} (hlt : seqIdx < numSeq.toNat) (hne : (res[seqIdx]?).getD [] ≠ []) :
    ClearInv (res.set seqIdx []) (cleared ++ [seqIdx]) := by
  obtain ⟨hlen, hnd, hmem, hcount, hfill⟩ := h
  have hlt2 : seqIdx < res.length := by rw [hlen]; exact hlt
  have hget : res[seqIdx]? = some res[seqIdx] := List.getElem?_eq_getElem hlt2
  have hne2 : res[seqIdx] ≠ [] := by
    rw [hget] at hne; exact hne
  have hnotin : seqIdx ∉ cleared := by
    intro hin
    have := (hmem seqIdx).mp hin
    rw [hget] at this
    exact hne2 (Option.some.inj this)
  refine ⟨by rw [List.length_set]; exact hlen, ?_, fun i => ?_, ?_, fun seq hseq hsne => ?_⟩
  · rw [List.nodup_append]
    refine ⟨hnd, List.nodup_singleton _, ?_⟩
    intro a ha hb
    rw [List.mem_singleton] at hb
    exact hnotin (hb ▸ ha)
  · rw [List.mem_append, List.mem_singleton, List.getElem?_set]
    by_cases hi : seqIdx = i
    · subst hi
      rw [if_pos rfl, if_pos hlt2]
      exact ⟨fun _ => rfl, fun _ => Or.inr rfl⟩
    · rw [if_neg hi, ← hmem i]
      exact ⟨fun hor => hor.resolve_right fun he => hi he.symm, Or.inl⟩
  · rw [List.count_set _ _ _ _ hlt2, List.length_append, List.length_singleton, hcount]
    have h1 : (res[seqIdx] == ([] : Sequence)) = false := by
      rw [beq_eq_false_iff_ne]; exact hne2
    simp [h1]
  · rcases List.mem_or_eq_of_mem_set hseq with hm | he
    · exact hfill seq hm hsne
    · exact absurd he hsne

/-- When the clearing loop returns, its invariant holds and it has cleared `n` more indices. -/
theorem clearSequences_spec (rand : Nat → Nat) (fuel : Nat) :
    ∀ (n : Nat) (res : List Sequence) (pos : Nat) (cleared : List Nat)
      (out : List Sequence × List Nat),
      clearSequences rand fuel n res pos cleared = some out → ClearInv res cleared →
      ClearInv out.1 out.2 ∧ out.2.length = cleared.length + n := by
  intro n
  induction n with
  | zero =>
    intro res pos cleared out h hinv
    rw [clearSequences] at h
    cases h
    exact ⟨hinv, rfl⟩
  | succ n ih =>
    intro res pos cleared out h hinv
    rw [clearSequences] at h
    cases hp : pickNonEmpty rand res fuel pos with
    | none => rw [hp] at h; cases h
    | some pr =>
      obtain ⟨seqIdx, pos1⟩ := pr
      rw [hp] at h
      obtain ⟨hlt, hne⟩ := pickNonEmpty_spec rand res fuel pos seqIdx pos1 hp
      obtain ⟨h1, h2⟩ := ih _ _ _ out h (hinv.step hlt hne)
      refine ⟨h1, ?_⟩
      rw [h2, List.length_append, List.length_singleton]; omega

/-- If the draw `k` steps ahead hits a sequence that is not empty, the retry loop returns,
and returns the same whatever the fuel beyond `k + 1`. -/
theorem pickNonEmpty_hits (rand : Nat → Nat) (res : List Sequence) :
    ∀ (k pos : Nat), (res[rand (pos + k) % numSeq.toNat]?).getD [] ≠ [] →
      ∃ out, ∀ fuel, k + 1 ≤ fuel → pickNonEmpty rand res fuel pos = some out := by
  have hnow : ∀ pos : Nat, ((res[rand pos % numSeq.toNat]?).getD []).isEmpty = false →
      ∀ fuel, 1 ≤ fuel →
        pickNonEmpty rand res fuel pos = some (rand pos % numSeq.toNat, pos + 1) := by
    intro pos hne fuel hfuel
    obtain ⟨f, rfl⟩ : ∃ f, fuel = f + 1 := ⟨fuel - 1, by omega⟩
    rw [pickNonEmpty, hne]
    rfl
  intro k
  induction k with
  | zero =>
    intro pos hne
    refine ⟨_, fun fuel hfuel => hnow pos ?_ fuel (by omega)⟩
    cases he : ((res[rand pos % numSeq.toNat]?).getD []).isEmpty with
    | false => rfl
    | true => exact absurd (List.isEmpty_iff.mp he) hne
  | succ k ih =>
    intro pos hne
    cases he : ((res[rand pos % numSeq.toNat]?).getD []).isEmpty with
    | false => exact ⟨_, fun fuel hfuel => hnow pos he fuel (by omega)⟩
    | true =>
      have hidx : pos + 1 + k = pos + (k + 1) := by omega
      obtain ⟨out, hout⟩ := ih (pos + 1) (by rw [hidx]; exact hne)
      refine ⟨out, fun fuel hfuel => ?_⟩
      obtain ⟨f, rfl⟩ : ∃ f, fuel = f + 1 := ⟨fuel - 1, by omega⟩
      rw [pickNonEmpty, he, if_pos rfl]
      exact hout f (by omega)

/-- While fewer than all sequences are cleared, one that is not empty is left. -/
theorem ClearInv.exists_nonempty {res : List Sequence} {cleared : List Nat}
    (h : ClearInv res cleared) (hlt : cleared.length < numSeq.toNat) :
    ∃ i, i < numSeq.toNat ∧ (res[i]?).getD [] ≠ [] := by
  obtain ⟨hlen, -, -, hcount, -⟩ := h
  have hne : res.count [] ≠ res.length := by omega
  rw [Ne, List.count_eq_length] at hne
  push_neg at hne
  obtain ⟨b, hb, hbne⟩ := hne
  obtain ⟨i, hi⟩ := List.mem_iff_getElem?.mp hb
  have hilt : i < res.length := by
    by_contra hge
    rw [List.getElem?_eq_none (by omega)] at hi
    cases hi
  exact ⟨i, by omega, by rw [hi]; exact fun he => hbne he.symm⟩

/-- On a stream that keeps drawing every index the clearing loop returns, and returns the same
whatever the fuel beyond some bound, as long as it is not asked to clear more than there is. -/
theorem clearSequences_terminates (rand : Nat → Nat) (hfair : EventuallyHits rand) :
    ∀ (n : Nat) (res : List Sequence) (pos : Nat) (cleared : List Nat),
      ClearInv res cleared → cleared.length + n ≤ numSeq.toNat →
      ∃ F out, ∀ fuel, F ≤ fuel → clearSequences rand fuel n res pos cleared = some out := by
  intro n
  induction n with
  | zero =>
    intro res pos cleared _ _
    exact ⟨0, (res, cleared), fun fuel _ => rfl⟩
  | succ n ih =>
    intro res pos cleared hinv hle
    obtain ⟨i, hi, hne⟩ := hinv.exists_nonempty (by omega)
    obtain ⟨k, hk⟩ := hfair pos i hi
    obtain ⟨⟨seqIdx, pos1⟩, hpick⟩ := pickNonEmpty_hits rand res k pos (by rw [hk]; exact hne)
    obtain ⟨hlt, hne1⟩ := pickNonEmpty_spec rand res (k + 1) pos seqIdx pos1
      (hpick (k + 1) (Nat.le_refl _))
    obtain ⟨F, out, hout⟩ := ih (res.set seqIdx []) pos1 (cleared ++ [seqIdx])
      (hinv.step hlt hne1) (by rw [List.length_append, List.length_singleton]; omega)
    refine ⟨max (k + 1) F, out, fun fuel hfuel => ?_⟩
    rw [clearSequences, hpick fuel (le_trans (le_max_left _ _) hfuel)]
    exact hout fuel (le_trans (le_max_right _ _) hfuel)

/-- On a stream that keeps drawing every index the generator returns for every count of
sequences to clear from `0` to `numSeq`. -/
theorem genSequencesCleared_terminates (rand : Nat → Nat) (hfair : EventuallyHits rand)
    (zeroCount : Int) (hle : zeroCount ≤ numSeq) :
    ∃ F out, ∀ fuel, F ≤ fuel → genSequencesCleared rand zeroCount fuel = some out := by
  have hn : numSeq = 10000 := by decide
  exact clearSequences_terminates rand hfair _ _ _ _ (clearInv_init rand)
    (by rw [List.length_nil, numSeq_toNat]; omega)

/-- The stream `0, 1, 2, ..` keeps drawing every index. -/
theorem eventuallyHits_id : EventuallyHits fun n => n := by
  intro pos idx hidx
  rw [numSeq_toNat] at hidx ⊢
  refine ⟨idx + (10000 - pos % 10000), ?_⟩
  show (pos + (idx + (10000 - pos % 10000))) % 10000 = idx
  omega

/-- On the stream that is constantly `0` the retry loop finds nothing once sequence `0` is
empty, whatever the fuel. -/
theorem pickNonEmpty_stuck (res : List Sequence) (h : (res[0]?).getD [] = []) :
    ∀ fuel pos : Nat, pickNonEmpty (fun _ => 0) res fuel pos = none := by
  intro fuel
  induction fuel with
  | zero => intro pos; rfl
  | succ fuel ih =>
    intro pos
    rw [pickNonEmpty]
    simp only [Nat.zero_mod, h, List.isEmpty_nil, if_true]
    exact ih _

theorem pickNonEmpty_zero (res : List Sequence) :
    ∀ (fuel pos seqIdx pos1 : Nat),
      pickNonEmpty (fun _ => 0) res fuel pos = some (seqIdx, pos1) → seqIdx = 0 := by
  intro fuel
  induction fuel with
  | zero => intro pos seqIdx pos1 h; cases h
  | succ fuel ih =>
    intro pos seqIdx pos1 h
    rw [pickNonEmpty] at h
    split at h
    · exact ih _ _ _ h
    · injection h with h1
      have := (Prod.mk.inj h1).1
      simp only [Nat.zero_mod] at this
      exact this.symm

/-- C15. For every `zeroCount >= 0` and every random stream on which it returns,
`genSequences(zeroCount)` returns exactly `numSeq = 10^4` sequences of which exactly
`zeroCount` are empty (so `zeroCount <= 10^4`); the indices it cleared are pairwise distinct
and are the indices of the empty sequences; every other sequence has between 1 and 20
elements, all in `[0, 1024)`. -/
theorem genSequences_spec (rand : Nat → Nat) (zeroCount : Int) (fuel : Nat)
    (ds : List Sequence) (h0 : 0 ≤ zeroCount)
    (hret : genSequences rand zeroCount fuel = some ds) :
    ((ds.length : Int) = numSeq ∧ ds.length = 10 ^ 4) ∧
    ((ds.count [] : Int) = zeroCount ∧ zeroCount ≤ numSeq) ∧
    (∃ cleared : List Nat, genSequencesCleared rand zeroCount fuel = some (ds, cleared) ∧
      cleared.Nodup ∧ (cleared.length : Int) = zeroCount ∧
      ∀ i, i ∈ cleared ↔ ds[i]? = some []) ∧
    ∀ seq ∈ ds, seq ≠ [] →
      1 ≤ seq.length ∧ seq.length ≤ 20 ∧ ∀ x ∈ seq, 0 ≤ x ∧ x < 1024 := by
  rw [genSequences] at hret
  cases hc : genSequencesCleared rand zeroCount fuel with
  | none => rw [hc] at hret; cases hret
  | some out =>
    rw [hc] at hret
    obtain ⟨res, cleared⟩ := out
    have hds : res = ds := Option.some.inj hret
    subst hds
    rw [genSequencesCleared] at hc
    obtain ⟨⟨hlen, hnd, hmem, hcount, hfill⟩, hcl⟩ :=
      clearSequences_spec rand fuel _ _ _ _ _ hc (clearInv_init rand)
    dsimp only at hlen hnd hmem hcount hfill hcl
    have hn : numSeq = 10000 := by decide
    have hclear : (cleared.length : Int) = zeroCount := by
      rw [hcl, List.length_nil]
      simp only [Nat.zero_add]
      exact Int.toNat_of_nonneg h0
    have hcount2 : ((res.count [] : Nat) : Int) = zeroCount := by
      show ((List.count [] res : Nat) : Int) = zeroCount
      rw [hcount]; exact hclear
    have hle := List.count_le_length ([] : Sequence) res
    rw [numSeq_toNat] at hlen
    refine ⟨⟨by rw [hlen, hn]; rfl, by rw [hlen]; rfl⟩, ⟨hcount2, ?_⟩,
      ⟨cleared, rfl, hnd, hclear, hmem⟩, fun seq hseq hne => hfill seq hseq hne⟩
    calc zeroCount = ((List.count [] res : Nat) : Int) := hcount2.symm
      _ ≤ 10000 := by omega
      _ = numSeq := hn.symm

theorem genSequences_spec_witness :
    ∃ (fuel : Nat) (ds : List Sequence),
      (0 : Int) ≤ 3 ∧ genSequences (fun n => n) 3 fuel = some ds ∧
      ((ds.length : Int) = numSeq ∧ ds.length = 10 ^ 4) ∧
      ((ds.count [] : Int) = 3 ∧ (3 : Int) ≤ numSeq) ∧
      (∃ cleared : List Nat, genSequencesCleared (fun n => n) 3 fuel = some (ds, cleared) ∧
        cleared.Nodup ∧ (cleared.length : Int) = 3 ∧
        ∀ i, i ∈ cleared ↔ ds[i]? = some []) ∧
      ∀ seq ∈ ds, seq ≠ [] →
        1 ≤ seq.length ∧ seq.length ≤ 20 ∧ ∀ x ∈ seq, 0 ≤ x ∧ x < 1024 := by
  obtain ⟨F, out, hF⟩ := genSequencesCleared_terminates (fun n => n) eventuallyHits_id 3
    (by decide)
  have hgen : genSequences (fun n => n) 3 F = some out.1 := by
    rw [genSequences, hF F (Nat.le_refl F)]; rfl
  exact ⟨F, out.1, by decide, hgen,
    genSequences_spec (fun n => n) 3 F out.1 (by decide) hgen⟩

/-- On a stream that from every point on draws every index again, `genSequences` returns for
every count from `0` to `numSeq`, the total count included: at each entry of the retry loop a
sequence that is not empty is left, and the loop exits at the first draw that hits one. -/
theorem genSequences_returns_of_eventuallyHits (rand : Nat → Nat) (emptyCount : Int)
    (h0 : 0 ≤ emptyCount) (hle : emptyCount ≤ numSeq) (hfair : EventuallyHits rand) :
    ∃ (F : Nat) (ds : List Sequence),
      (∀ fuel, F ≤ fuel → genSequences rand emptyCount fuel = some ds) ∧
      (ds.count [] : Int) = emptyCount := by
  obtain ⟨F, out, hF⟩ := genSequencesCleared_terminates rand hfair emptyCount hle
  have hgen : ∀ fuel, F ≤ fuel → genSequences rand emptyCount fuel = some out.1 := by
    intro fuel hfuel
    rw [genSequences, hF fuel hfuel]; rfl
  have hc := hF F (Nat.le_refl F)
  rw [genSequencesCleared] at hc
  obtain ⟨⟨-, -, -, hcount, -⟩, hcl⟩ :=
    clearSequences_spec rand F _ _ _ _ _ hc (clearInv_init rand)
  refine ⟨F, out.1, hgen, ?_⟩
  show ((List.count [] out.1 : Nat) : Int) = emptyCount
  rw [hcount, hcl, List.length_nil]
  simp only [Nat.zero_add]
  exact Int.toNat_of_nonneg h0

/-- Whether the retry loop exits rests on the stream alone: on the stream that is constantly
`0`, `genSequences(2)` clears sequence `0` and then draws index `0` again and again, and no
number of draws lets the second retry loop exit. -/
theorem genSequences_constant_stream :
    (0 : Int) ≤ 2 ∧ (2 : Int) ≤ numSeq ∧
    ∀ fuel : Nat, genSequences (fun _ => 0) 2 fuel = none := by
  refine ⟨by decide, by decide, fun fuel => ?_⟩
  have h2 : (2 : Int).toNat = 1 + 1 := rfl
  rw [genSequences, genSequencesCleared, h2, clearSequences]
  cases hp : pickNonEmpty (fun _ => 0) (fillSequences (fun _ => 0) numSeq.toNat 0 []).1 fuel
      (fillSequences (fun _ => 0) numSeq.toNat 0 []).2 with
  | none => rfl
  | some pr =>
    obtain ⟨seqIdx, pos1⟩ := pr
    have hz := pickNonEmpty_zero _ _ _ _ _ hp
    subst hz
    simp only [clearSequences]
    rw [pickNonEmpty_stuck]
    · rfl
    · cases (fillSequences (fun _ => 0) numSeq.toNat 0 []).1 with
      | nil => rfl
      | cons a l => simp

end ErrorHandling

